import Mathlib

/-!
Shallow embedding of the UColor JavaScript class (src/index.js of
jerecede/color-utility).

JS strings are modelled as `List Char`; JS numbers as `JSNum` (NaN or a
rational).  All arithmetic the claims exercise is decimal / small-integer
arithmetic on which the double-precision computations of the source are
exact, so rationals model them faithfully.
-/

/-- A JavaScript number: NaN or a finite numeric value, modelled as a
rational. -/
inductive JSNum where
  | nan : JSNum
  | num : ℚ → JSNum
deriving DecidableEq

namespace JSNum

/-- JS multiplication: NaN is absorbing. -/
def mul : JSNum → JSNum → JSNum
  | num a, num b => num (a * b)
  | _, _ => nan

/-- JS addition: NaN is absorbing. -/
def add : JSNum → JSNum → JSNum
  | num a, num b => num (a + b)
  | _, _ => nan

/-- JS truthiness of a number: everything except `0`, `-0` and `NaN`
(`-0 = 0` in `ℚ`). -/
def truthy : JSNum → Bool
  | nan => false
  | num q => q != 0

end JSNum

/-- `Math.round`: round half towards positive infinity. -/
def jsRound (q : ℚ) : ℤ :=
  ⌊q + 1 / 2⌋

/-- `Math.round` lifted to `JSNum` (`Math.round(NaN) = NaN`). -/
def jsRoundNum : JSNum → JSNum
  | JSNum.nan => JSNum.nan
  | JSNum.num q => JSNum.num (jsRound q)

/-- Truncation towards zero, as JS `%` uses. -/
def ratTrunc (q : ℚ) : ℤ :=
  if 0 ≤ q then ⌊q⌋ else -⌊-q⌋

/-- The JS remainder operator `%`: `a - b * trunc(a / b)`. -/
def jsMod (a b : ℚ) : ℚ :=
  a - b * (ratTrunc (a / b) : ℚ)

/-- The whitespace characters `String.prototype.trim` strips (the ASCII
ones; the source never meets the exotic ones). -/
def isSpaceJS (c : Char) : Bool :=
  c == ' ' || c == '\t' || c == '\n' || c == '\r'

/-- `String.prototype.trim`: drop whitespace from both ends. -/
def jsTrim (s : List Char) : List Char :=
  ((s.dropWhile isSpaceJS).reverse.dropWhile isSpaceJS).reverse

/-- `String.prototype.indexOf` for a one-character needle: index of the
first occurrence, `-1` if absent. -/
def jsIndexOf (c : Char) (s : List Char) : ℤ :=
  if c ∈ s then (s.indexOf c : ℤ) else -1

/-- Normalize one `slice` endpoint: a negative index counts from the end,
then clamp into `[0, length]`. -/
def sliceIdx (n : ℤ) (i : ℤ) : ℕ :=
  if i < 0 then (n + i).toNat else min i.toNat n.toNat

/-- `String.prototype.slice(start, stop)` with possibly negative
endpoints. -/
def jsSlice (s : List Char) (start stop : ℤ) : List Char :=
  (s.take (sliceIdx (s.length : ℤ) stop)).drop (sliceIdx (s.length : ℤ) start)

/-- `String.prototype.split` on a one-character separator.
`jsSplit sep [] = [[]]`, matching JS `"".split(sep) = [""]`. -/
def jsSplit (sep : Char) : List Char → List (List Char)
  | [] => [[]]
  | c :: cs =>
    if c == sep then [] :: jsSplit sep cs
    else
      match jsSplit sep cs with
      | [] => [[c]]
      | h :: t => (c :: h) :: t

/-- Value of a list of decimal digit characters, most significant
first. -/
def digitsVal (cs : List Char) : ℕ :=
  cs.foldl (fun a c => a * 10 + (c.toNat - 48)) 0

/-- `Number(string)`, split into a string-level phase (this function,
entirely over `ℕ`) and a numeric phase (`valOfParts`).  The result is
`none` for NaN, otherwise sign, integer digits, fraction digits and
fraction length.  The grammar is the one the source exercises: optional
surrounding whitespace, empty means `0`, else an optional sign followed
by decimal digits with an optional fraction part (exponent and hex forms
never arise in this repository). -/
def jsParse (s : List Char) : Option (Bool × ℕ × ℕ × ℕ) :=
  let t := jsTrim s
  if t.isEmpty then some (false, 0, 0, 0) else
  let sgn : Bool × List Char :=
    if t.head? = some ('-') then (true, t.tail)
    else if t.head? = some ('+') then (false, t.tail)
    else (false, t)
  match jsSplit '.' sgn.2 with
  | [ip] =>
    if !ip.isEmpty && ip.all Char.isDigit then
      some (sgn.1, digitsVal ip, 0, 0)
    else none
  | [ip, fp] =>
    if !(ip.isEmpty && fp.isEmpty) && ip.all Char.isDigit && fp.all Char.isDigit then
      some (sgn.1, digitsVal ip, digitsVal fp, fp.length)
    else none
  | _ => none

/-- The rational value of a parsed decimal literal. -/
def valOfParts (p : Bool × ℕ × ℕ × ℕ) : ℚ :=
  (if p.1 then -1 else 1) * ((p.2.1 : ℚ) + (p.2.2.1 : ℚ) / 10 ^ p.2.2.2)

/-- `Number(string)`. -/
def jsNumberOfChars (s : List Char) : JSNum :=
  match jsParse s with
  | none => JSNum.nan
  | some p => JSNum.num (valOfParts p)

/-- `Number(x)` where `x` is a string or `undefined`
(`Number(undefined) = NaN`). -/
def jsToNumber : Option (List Char) → JSNum
  | none => JSNum.nan
  | some s => jsNumberOfChars s

/-- The UColor class: four channels, each a JS number. -/
structure UColor where
  r : JSNum
  g : JSNum
  b : JSNum
  a : JSNum
deriving DecidableEq

/-- The string-level part of `UColor.fromRGBA`:
`rgbaString.trim().slice(rgbaString.indexOf("(") + 1, -1).split(',')`.
Note that the index of `(` is computed on the UNtrimmed string while the
slice is taken of the trimmed one, exactly as in the source. -/
def fromRGBAparts (rgbaString : List Char) : List (List Char) :=
  jsSplit ',' (jsSlice (jsTrim rgbaString) (jsIndexOf '(' rgbaString + 1) (-1))

/-- `UColor.fromRGBA`: `Number` the first three comma-separated fields;
the fourth becomes alpha only when it is truthy, else alpha is 1. -/
def fromRGBA (rgbaString : List Char) : UColor :=
  UColor.mk
    (jsToNumber ((fromRGBAparts rgbaString).get? 0))
    (jsToNumber ((fromRGBAparts rgbaString).get? 1))
    (jsToNumber ((fromRGBAparts rgbaString).get? 2))
    (if (jsToNumber ((fromRGBAparts rgbaString).get? 3)).truthy
     then jsToNumber ((fromRGBAparts rgbaString).get? 3)
     else JSNum.num 1)

/-! ### HEX parsing and formatting -/

/-- Value of one hex digit character, in either case, else `none`. -/
def hexDigitVal (c : Char) : Option ℕ :=
  if '0' ≤ c ∧ c ≤ '9' then some (c.toNat - 48)
  else if 'a' ≤ c ∧ c ≤ 'f' then some (c.toNat - 87)
  else if 'A' ≤ c ∧ c ≤ 'F' then some (c.toNat - 55)
  else none

/-- The maximal prefix of hex digits, as digit values. -/
def hexPrefixVal : List Char → List ℕ
  | [] => []
  | c :: cs =>
    match hexDigitVal c with
    | some v => v :: hexPrefixVal cs
    | none => []

/-- String-level phase of `parseInt(s, 16)`: trim, optional sign, then the
maximal run of hex digits; no digits means NaN (`none`).  (The `0x` prefix
form never arises in this repository.) -/
def parseIntHexParts (s : List Char) : Option (Bool × ℕ) :=
  let t := jsTrim s
  let sgn : Bool × List Char :=
    match t with
    | '-' :: rest => (true, rest)
    | '+' :: rest => (false, rest)
    | _ => (false, t)
  let ds := hexPrefixVal sgn.2
  if ds.isEmpty then none
  else some (sgn.1, ds.foldl (fun a d => a * 16 + d) 0)

/-- `parseInt(s, 16)` as a JS number. -/
def parseIntHex (s : List Char) : JSNum :=
  match parseIntHexParts s with
  | none => JSNum.nan
  | some p => JSNum.num ((if p.1 then -1 else 1) * (p.2 : ℚ))

/-- `(...).toFixed(3)` followed by `parseFloat`: round to three decimal
places, half towards positive infinity. -/
def round3 (q : ℚ) : ℚ :=
  (jsRound (q * 1000) : ℚ) / 1000

/-- `UColor.fromHEX`: channels from `parseInt` of the 2-character slices;
alpha from the fourth pair only when the string has length 9. -/
def fromHEX (hexString : List Char) : UColor :=
  UColor.mk
    (parseIntHex (jsSlice hexString 1 3))
    (parseIntHex (jsSlice hexString 3 5))
    (parseIntHex (jsSlice hexString 5 7))
    (if hexString.length = 9 then
      match parseIntHex (jsSlice hexString 7 9) with
      | JSNum.nan => JSNum.nan
      | JSNum.num q => JSNum.num (round3 (q / 255))
     else JSNum.num 1)

/-- `padStart(2, '0')`. -/
def padStart2 (cs : List Char) : List Char :=
  List.replicate (2 - cs.length) '0' ++ cs

/-- `i.toString(16)` for an integral JS number. -/
def decToHexInt (i : ℤ) : List Char :=
  if i < 0 then '-' :: Nat.toDigits 16 i.natAbs else Nat.toDigits 16 i.toNat

/-- Hex expansion of a fractional part, with fuel. -/
def hexFrac : ℕ → ℚ → List Char
  | 0, _ => []
  | n + 1, q =>
    if q = 0 then []
    else Nat.digitChar (⌊q * 16⌋).toNat :: hexFrac n (q * 16 - ((⌊q * 16⌋ : ℤ) : ℚ))

/-- `x.toString(16)` for a JS number: `NaN` prints as `NaN`, an integer as
sign plus lowercase hex digits, a non-integer as integer part, point and
hex fraction digits (32 digits of fuel; the claims only ever reach the
integer case). -/
def jsNumToHexChars : JSNum → List Char
  | JSNum.nan => ['N', 'a', 'N']
  | JSNum.num q =>
    if q.den = 1 then decToHexInt q.num
    else
      (if q < 0 then ['-'] else []) ++
        Nat.toDigits 16 (⌊|q|⌋).toNat ++
          '.' :: hexFrac 32 (|q| - ((⌊|q|⌋ : ℤ) : ℚ))

/-- `UColor.toHEX`: `#rrggbb` when alpha is strictly equal to 1, else
`#rrggbbaa` with the alpha byte `Math.round(a * 255)`. -/
def toHEX (c : UColor) : List Char :=
  if c.a = JSNum.num 1 then
    '#' :: (padStart2 (jsNumToHexChars c.r) ++ padStart2 (jsNumToHexChars c.g) ++
      padStart2 (jsNumToHexChars c.b))
  else
    '#' :: (padStart2 (jsNumToHexChars c.r) ++ padStart2 (jsNumToHexChars c.g) ++
      padStart2 (jsNumToHexChars c.b) ++
      padStart2 (jsNumToHexChars (jsRoundNum (c.a.mul (JSNum.num 255)))))

/-- Facts about two-digit hex pairs. -/
theorem hexPair_spec : ∀ n : ℕ, n < 256 →
    (padStart2 (Nat.toDigits 16 n)).length = 2 ∧
    parseIntHexParts (padStart2 (Nat.toDigits 16 n)) = some (false, n) := by
  set_option maxRecDepth 4000 in
  decide

theorem jsNumToHexChars_natCast (n : ℕ) :
    jsNumToHexChars (JSNum.num (n : ℚ)) = Nat.toDigits 16 n := by
  simp only [jsNumToHexChars]
  rw [if_pos (Rat.den_natCast n), Rat.num_natCast, decToHexInt,
    if_neg (not_lt.mpr (Int.natCast_nonneg n)), Int.toNat_natCast]

theorem jsSlice7_13 (c0 c1 c2 c3 c4 c5 c6 : Char) :
    jsSlice [c0, c1, c2, c3, c4, c5, c6] 1 3 = [c1, c2] := rfl

theorem jsSlice7_35 (c0 c1 c2 c3 c4 c5 c6 : Char) :
    jsSlice [c0, c1, c2, c3, c4, c5, c6] 3 5 = [c3, c4] := rfl

theorem jsSlice7_57 (c0 c1 c2 c3 c4 c5 c6 : Char) :
    jsSlice [c0, c1, c2, c3, c4, c5, c6] 5 7 = [c5, c6] := rfl

/-- Claim C3: `fromHEX ∘ toHEX` is the identity on colors with integer
channels in [0, 255] and alpha exactly 1. -/
theorem hex_roundtrip (r g b : ℕ) (hr : r ≤ 255) (hg : g ≤ 255) (hb : b ≤ 255) :
    fromHEX (toHEX (UColor.mk (JSNum.num (r : ℚ)) (JSNum.num (g : ℚ))
        (JSNum.num (b : ℚ)) (JSNum.num 1))) =
      UColor.mk (JSNum.num (r : ℚ)) (JSNum.num (g : ℚ)) (JSNum.num (b : ℚ))
        (JSNum.num 1) := by
  obtain ⟨hrl, hrp⟩ := hexPair_spec r (by omega)
  obtain ⟨hgl, hgp⟩ := hexPair_spec g (by omega)
  obtain ⟨hbl, hbp⟩ := hexPair_spec b (by omega)
  have htx : toHEX (UColor.mk (JSNum.num (r : ℚ)) (JSNum.num (g : ℚ))
      (JSNum.num (b : ℚ)) (JSNum.num 1)) =
      '#' :: (padStart2 (Nat.toDigits 16 r) ++ padStart2 (Nat.toDigits 16 g) ++
        padStart2 (Nat.toDigits 16 b)) := by
    simp [toHEX, jsNumToHexChars_natCast]
  obtain ⟨x1, x2, hx⟩ := List.length_eq_two.mp hrl
  obtain ⟨y1, y2, hy⟩ := List.length_eq_two.mp hgl
  obtain ⟨z1, z2, hz⟩ := List.length_eq_two.mp hbl
  have hrp2 : parseIntHexParts ([x1, x2]) = some (false, r) := hx ▸ hrp
  have hgp2 : parseIntHexParts ([y1, y2]) = some (false, g) := hy ▸ hgp
  have hbp2 : parseIntHexParts ([z1, z2]) = some (false, b) := hz ▸ hbp
  rw [htx, hx, hy, hz]
  show fromHEX [ '#', x1, x2, y1, y2, z1, z2] = _
  rw [fromHEX, jsSlice7_13, jsSlice7_35, jsSlice7_57]
  rw [parseIntHex, parseIntHex, parseIntHex, hrp2, hgp2, hbp2]
  simp

/-- Claim C4: the literal scenario `fromHEX "#ff340031"` gives
`(255, 52, 0, 0.192)` and `toHEX` of that result returns exactly
`"#ff340031"`. -/
theorem hex_ff340031 :
    fromHEX (("#ff340031").data) =
      UColor.mk (JSNum.num 255) (JSNum.num 52) (JSNum.num 0) (JSNum.num 0.192) ∧
    toHEX (fromHEX (("#ff340031").data)) = ("#ff340031").data := by
  have h1 : fromHEX (("#ff340031").data) =
      UColor.mk (JSNum.num 255) (JSNum.num 52) (JSNum.num 0) (JSNum.num 0.192) := by
    have hs13 : jsSlice (("#ff340031").data) 1 3 = ['f', 'f'] := by decide
    have hs35 : jsSlice (("#ff340031").data) 3 5 = ['3', '4'] := by decide
    have hs57 : jsSlice (("#ff340031").data) 5 7 = ['0', '0'] := by decide
    have hs79 : jsSlice (("#ff340031").data) 7 9 = ['3', '1'] := by decide
    have hpr : parseIntHexParts (['f', 'f']) = some (false, 255) := by decide
    have hpg : parseIntHexParts (['3', '4']) = some (false, 52) := by decide
    have hpb : parseIntHexParts (['0', '0']) = some (false, 0) := by decide
    have hpa : parseIntHexParts (['3', '1']) = some (false, 49) := by decide
    rw [fromHEX, hs13, hs35, hs57, hs79, parseIntHex, parseIntHex, parseIntHex,
      parseIntHex, hpr, hpg, hpb, hpa]
    have hlen : (("#ff340031").data).length = 9 := by decide
    rw [if_pos hlen]
    simp only [UColor.mk.injEq]
    refine ⟨by norm_num, by norm_num, by norm_num, ?_⟩
    have : round3 ((if false = true then -1 else 1) * ((49 : ℕ) : ℚ) / 255) =
        (0.192 : ℚ) := by
      rw [round3, jsRound]
      norm_num
    rw [← this]
  refine ⟨h1, ?_⟩
  rw [h1]
  have hne : (JSNum.num (0.192 : ℚ)) ≠ JSNum.num 1 := by
    simp only [ne_eq, JSNum.num.injEq]
    norm_num
  rw [toHEX, if_neg (by simpa using hne)]
  have h255 : jsNumToHexChars (JSNum.num 255) = ['f', 'f'] := by
    have : ((255 : ℕ) : ℚ) = (255 : ℚ) := by norm_num
    rw [← this, jsNumToHexChars_natCast]
    decide
  have h52 : jsNumToHexChars (JSNum.num 52) = ['3', '4'] := by
    have : ((52 : ℕ) : ℚ) = (52 : ℚ) := by norm_num
    rw [← this, jsNumToHexChars_natCast]
    decide
  have h0 : jsNumToHexChars (JSNum.num 0) = ['0'] := by
    have : ((0 : ℕ) : ℚ) = (0 : ℚ) := by norm_num
    rw [← this, jsNumToHexChars_natCast]
    decide
  have ha : (JSNum.num (0.192 : ℚ)).mul (JSNum.num 255) = JSNum.num (48.96 : ℚ) := by
    simp only [JSNum.mul, JSNum.num.injEq]
    norm_num
  have hround : jsRoundNum (JSNum.num (48.96 : ℚ)) = JSNum.num ((49 : ℕ) : ℚ) := by
    simp only [jsRoundNum, jsRound, JSNum.num.injEq]
    norm_num
  have h49 : jsNumToHexChars (JSNum.num ((49 : ℕ) : ℚ)) = ['3', '1'] := by
    rw [jsNumToHexChars_natCast]
    decide
  rw [ha, hround, h255, h52, h0, h49]
  decide

/-! ### String lemmas for claim C1 -/

theorem dropWhile_append_of_all (p : Char → Bool) (l l2 : List Char)
    (h : ∀ x ∈ l, p x = true) :
    (l ++ l2).dropWhile p = l2.dropWhile p := by
  induction l with
  | nil => rfl
  | cons c cs ih =>
    simp only [List.cons_append, List.dropWhile_cons, h c (by simp)]
    exact ih (fun x hx => h x (by simp [hx]))

theorem jsTrim_fixed_parts (s : List Char) (h : jsTrim s = s) :
    s.dropWhile isSpaceJS = s ∧ s.reverse.dropWhile isSpaceJS = s.reverse := by
  have h1 : (s.dropWhile isSpaceJS).length ≤ s.length :=
    (List.dropWhile_suffix isSpaceJS).length_le
  have h2 : ((s.dropWhile isSpaceJS).reverse.dropWhile isSpaceJS).length ≤
      (s.dropWhile isSpaceJS).length := by
    have := (List.dropWhile_suffix (l := (s.dropWhile isSpaceJS).reverse) isSpaceJS).length_le
    simpa using this
  have hlen : (jsTrim s).length = s.length := by rw [h]
  have hlen2 : ((s.dropWhile isSpaceJS).reverse.dropWhile isSpaceJS).length = s.length := by
    simpa [jsTrim] using hlen
  have hu : s.dropWhile isSpaceJS = s :=
    (List.dropWhile_suffix isSpaceJS).eq_of_length (by omega)
  refine ⟨hu, ?_⟩
  have hv : ((s.dropWhile isSpaceJS).reverse.dropWhile isSpaceJS).reverse = s := h
  rw [hu] at hv
  calc s.reverse.dropWhile isSpaceJS
      = ((s.reverse.dropWhile isSpaceJS).reverse).reverse := by rw [List.reverse_reverse]
    _ = s.reverse := by rw [hv]

theorem jsTrim_append_spaces (body ws : List Char) (hne : body ≠ [])
    (ht : jsTrim body = body) (hw : ∀ x ∈ ws, isSpaceJS x = true) :
    jsTrim (body ++ ws) = body := by
  obtain ⟨hd, htr⟩ := jsTrim_fixed_parts body ht
  obtain ⟨c, cs, rfl⟩ := List.exists_cons_of_ne_nil hne
  have hc : isSpaceJS c = false := by
    rw [List.dropWhile_cons] at hd
    by_contra hcc
    rw [Bool.not_eq_false] at hcc
    rw [if_pos hcc] at hd
    have := (List.dropWhile_suffix (l := cs) isSpaceJS).length_le
    have := congrArg List.length hd
    simp at this
    omega
  unfold jsTrim
  rw [List.cons_append, List.dropWhile_cons, hc]
  have hrw : (c :: (cs ++ ws)).reverse = ws.reverse ++ (c :: cs).reverse := by
    rw [show c :: (cs ++ ws) = (c :: cs) ++ ws from rfl, List.reverse_append]
  rw [if_neg (by simp), hrw,
    dropWhile_append_of_all _ _ _ (fun x hx => hw x (List.mem_reverse.mp hx)), htr,
    List.reverse_reverse]

/-- Claim C1, counterexample: one leading space already changes the parse,
because `indexOf("(")` is evaluated on the untrimmed string while the slice
is taken of the trimmed one.  `fromRGBA(" rgb(1,2,3)")` is `(0, 2, 3, 1)`,
not `(1, 2, 3, 1)`. -/
theorem fromRGBA_leading_ws_cex :
    fromRGBA ((" rgb(1,2,3)").data) ≠ fromRGBA (("rgb(1,2,3)").data) := by
  have hA : fromRGBAparts ((" rgb(1,2,3)").data) = [[], ['2'], ['3']] := by decide
  have hB : fromRGBAparts (("rgb(1,2,3)").data) = [['1'], ['2'], ['3']] := by decide
  have h0 : jsParse ([] : List Char) = some (false, 0, 0, 0) := by decide
  have h1 : jsParse (['1']) = some (false, 1, 0, 0) := by decide
  have h2 : jsParse (['2']) = some (false, 2, 0, 0) := by decide
  have h3 : jsParse (['3']) = some (false, 3, 0, 0) := by decide
  simp [fromRGBA, hA, hB, jsToNumber, jsNumberOfChars, h0, h1, h2, h3, valOfParts,
    JSNum.truthy]

/-- Claim C1, amended: outer whitespace is harmless only when it is
TRAILING.  For any body that contains a `(` and carries no outer
whitespace of its own (in particular every well-formed
`rgb(...)`/`rgba(...)` body), appending whitespace does not change the
parse; a LEADING space shifts the slice (see the counterexample). -/
theorem fromRGBA_trailing_ws (body ws : List Char) (hp : '(' ∈ body)
    (ht : jsTrim body = body) (hw : ∀ x ∈ ws, isSpaceJS x = true) :
    fromRGBA (body ++ ws) = fromRGBA body := by
  have hne : body ≠ [] := by rintro rfl; simp at hp
  have hparts : fromRGBAparts (body ++ ws) = fromRGBAparts body := by
    unfold fromRGBAparts
    rw [jsTrim_append_spaces body ws hne ht hw, ht]
    unfold jsIndexOf
    rw [if_pos (show '(' ∈ body ++ ws by simp [hp]), if_pos hp,
      List.indexOf_append_of_mem hp]
  simp [fromRGBA, hparts]

/-- Witness for `fromRGBA_trailing_ws` at a concrete input. -/
theorem fromRGBA_trailing_ws_witness :
    fromRGBA (("rgb(1,2,3)").data ++ [' ', ' ']) = fromRGBA (("rgb(1,2,3)").data) := by
  exact fromRGBA_trailing_ws (("rgb(1,2,3)").data) [' ', ' '] (by decide) (by decide)
    (by decide)

/-- Claim C2: if the comma-split body has a fourth field, the returned
alpha is that field's numeric value when that value is a non-zero,
non-NaN number, and 1 otherwise; in particular `rgba(0,0,0,0)` gets
alpha 1 and `rgb(255,161,12,0.8)` parses to (255, 161, 12, 0.8). -/
theorem fromRGBA_alpha_rule :
    (∀ s : List Char, 4 ≤ (fromRGBAparts s).length →
      (∀ q : ℚ, jsToNumber ((fromRGBAparts s).get? 3) = JSNum.num q → q ≠ 0 →
        (fromRGBA s).a = JSNum.num q) ∧
      (jsToNumber ((fromRGBAparts s).get? 3) = JSNum.nan ∨
        jsToNumber ((fromRGBAparts s).get? 3) = JSNum.num 0 →
        (fromRGBA s).a = JSNum.num 1)) ∧
    fromRGBA (("rgba(0,0,0,0)").data) =
      UColor.mk (JSNum.num 0) (JSNum.num 0) (JSNum.num 0) (JSNum.num 1) ∧
    fromRGBA (("rgb(255,161,12,0.8)").data) =
      UColor.mk (JSNum.num 255) (JSNum.num 161) (JSNum.num 12) (JSNum.num (4 / 5)) := by
  refine ⟨fun s _hlen => ⟨fun q hq hq0 => ?_, fun h => ?_⟩, ?_, ?_⟩
  · simp only [fromRGBA]
    rw [hq]
    simp [JSNum.truthy, hq0]
  · rcases h with h | h <;>
      (simp only [fromRGBA]; rw [h]; simp [JSNum.truthy])
  · have hA : fromRGBAparts (("rgba(0,0,0,0)").data) =
        [['0'], ['0'], ['0'], ['0']] := by decide
    have h0 : jsParse (['0']) = some (false, 0, 0, 0) := by decide
    simp [fromRGBA, hA, jsToNumber, jsNumberOfChars, h0, valOfParts, JSNum.truthy]
  · have hA : fromRGBAparts (("rgb(255,161,12,0.8)").data) =
        [['2', '5', '5'], ['1', '6', '1'], ['1', '2'], ['0', '.', '8']] := by decide
    have h0 : jsParse (['2', '5', '5']) = some (false, 255, 0, 0) := by decide
    have h1 : jsParse (['1', '6', '1']) = some (false, 161, 0, 0) := by decide
    have h2 : jsParse (['1', '2']) = some (false, 12, 0, 0) := by decide
    have h3 : jsParse (['0', '.', '8']) = some (false, 0, 8, 1) := by decide
    simp [fromRGBA, hA, jsToNumber, jsNumberOfChars, h0, h1, h2, h3, valOfParts,
      JSNum.truthy]
    norm_num

/-- Witness for `fromRGBA_alpha_rule` at a concrete input with a truthy
fourth field. -/
theorem fromRGBA_alpha_rule_witness :
    (fromRGBA (("rgba(9,9,9,5)").data)).a = JSNum.num 5 := by
  have hA : fromRGBAparts (("rgba(9,9,9,5)").data) =
      [['9'], ['9'], ['9'], ['5']] := by decide
  have h5 : jsToNumber ((fromRGBAparts (("rgba(9,9,9,5)").data)).get? 3) =
      JSNum.num 5 := by
    rw [hA]
    have : jsParse (['5']) = some (false, 5, 0, 0) := by decide
    simp [jsToNumber, jsNumberOfChars, this, valOfParts]
  exact (fromRGBA_alpha_rule.1 (("rgba(9,9,9,5)").data) (by rw [hA]; decide)).1 5 h5
    (by norm_num)

/-- Witness for `hex_roundtrip` at a concrete input. -/
theorem hex_roundtrip_witness :
    fromHEX (toHEX (UColor.mk (JSNum.num ((255 : ℕ) : ℚ)) (JSNum.num ((161 : ℕ) : ℚ))
        (JSNum.num ((12 : ℕ) : ℚ)) (JSNum.num 1))) =
      UColor.mk (JSNum.num ((255 : ℕ) : ℚ)) (JSNum.num ((161 : ℕ) : ℚ))
        (JSNum.num ((12 : ℕ) : ℚ)) (JSNum.num 1) :=
  hex_roundtrip 255 161 12 (by norm_num) (by norm_num) (by norm_num)

/-! ### Grayscale -/

/-- `UColor.etGrayScale` (so named in the source, where a stray `g` before
the comment turns `getGrayScale` into a field `g` plus a method
`etGrayScale`): luma-weighted gray, same alpha. -/
def etGrayScale (c : UColor) : UColor :=
  UColor.mk
    (jsRoundNum (((c.r.mul (JSNum.num 0.299)).add (c.g.mul (JSNum.num 0.587))).add
      (c.b.mul (JSNum.num 0.114))))
    (jsRoundNum (((c.r.mul (JSNum.num 0.299)).add (c.g.mul (JSNum.num 0.587))).add
      (c.b.mul (JSNum.num 0.114))))
    (jsRoundNum (((c.r.mul (JSNum.num 0.299)).add (c.g.mul (JSNum.num 0.587))).add
      (c.b.mul (JSNum.num 0.114))))
    c.a

theorem jsRound_intCast (z : ℤ) : jsRound ((z : ℚ)) = z := by
  rw [jsRound, Int.floor_int_add]
  norm_num

/-- Claim C7: the grayscale derivation is idempotent on every color with
numeric channels: the weights 0.299 + 0.587 + 0.114 sum to exactly 1, so
re-graying an already gray (integral) color rounds to the same value, and
alpha is untouched. -/
theorem grayscale_idempotent (r g b a : ℚ) :
    etGrayScale (etGrayScale (UColor.mk (JSNum.num r) (JSNum.num g) (JSNum.num b)
        (JSNum.num a))) =
      etGrayScale (UColor.mk (JSNum.num r) (JSNum.num g) (JSNum.num b) (JSNum.num a)) := by
  have collapse : ∀ z : ℤ,
      jsRound (((z : ℚ) * 0.299 + (z : ℚ) * 0.587) + (z : ℚ) * 0.114) = z := by
    intro z
    have h : ((z : ℚ) * 0.299 + (z : ℚ) * 0.587) + (z : ℚ) * 0.114 = (z : ℚ) := by
      ring_nf
    rw [h, jsRound_intCast]
  have e1 : etGrayScale (UColor.mk (JSNum.num r) (JSNum.num g) (JSNum.num b)
      (JSNum.num a)) =
      UColor.mk (JSNum.num ((jsRound ((r * 0.299 + g * 0.587) + b * 0.114) : ℤ) : ℚ))
        (JSNum.num ((jsRound ((r * 0.299 + g * 0.587) + b * 0.114) : ℤ) : ℚ))
        (JSNum.num ((jsRound ((r * 0.299 + g * 0.587) + b * 0.114) : ℤ) : ℚ))
        (JSNum.num a) := rfl
  rw [e1]
  have e2 : ∀ z : ℤ, etGrayScale (UColor.mk (JSNum.num ((z : ℤ) : ℚ))
      (JSNum.num ((z : ℤ) : ℚ)) (JSNum.num ((z : ℤ) : ℚ)) (JSNum.num a)) =
      UColor.mk
        (JSNum.num ((jsRound (((z : ℚ) * 0.299 + (z : ℚ) * 0.587) + (z : ℚ) * 0.114) : ℤ) : ℚ))
        (JSNum.num ((jsRound (((z : ℚ) * 0.299 + (z : ℚ) * 0.587) + (z : ℚ) * 0.114) : ℤ) : ℚ))
        (JSNum.num ((jsRound (((z : ℚ) * 0.299 + (z : ℚ) * 0.587) + (z : ℚ) * 0.114) : ℤ) : ℚ))
        (JSNum.num a) := fun z => rfl
  rw [e2, collapse]

/-! ### RGB ↔ HSL conversions -/

/-- `UColor.rgbToHsl` on the three numeric channel values: returns
`(h, s, l)`.  Transcribed branch for branch from the source, including the
`switch (max)` order `r`, `g`, `b`. -/
def rgbToHsl (r0 g0 b0 : ℚ) : ℚ × ℚ × ℚ :=
  let r := r0 / 255
  let g := g0 / 255
  let b := b0 / 255
  let mx := max (max r g) b
  let mn := min (min r g) b
  let l := (mx + mn) / 2
  if mx = mn then (0, 0, l)
  else
    let d := mx - mn
    let s := if l > 1 / 2 then d / (2 - mx - mn) else d / (mx + mn)
    let h :=
      if mx = r then (g - b) / d + (if g < b then 6 else 0)
      else if mx = g then (b - r) / d + 2
      else (r - g) / d + 4
    (h * 60, s, l)

/-- The `hueToRgb` helper inside `hslToRgb`: wrap `t` once each way, then
the 4-region piecewise interpolation. -/
def hueToRgb (p q t0 : ℚ) : ℚ :=
  let t1 := if t0 < 0 then t0 + 1 else t0
  let t := if t1 > 1 then t1 - 1 else t1
  if t < 1 / 6 then p + (q - p) * 6 * t
  else if t < 1 / 2 then q
  else if t < 2 / 3 then p + (q - p) * (2 / 3 - t) * 6
  else p

/-- `UColor.hslToRgb`: returns the rounded `(r, g, b)` integers. -/
def hslToRgb (h s l : ℚ) : ℤ × ℤ × ℤ :=
  if s = 0 then (jsRound (l * 255), jsRound (l * 255), jsRound (l * 255))
  else
    let q := if l < 1 / 2 then l * (1 + s) else l + s - l * s
    let p := 2 * l - q
    (jsRound (hueToRgb p q (h / 360 + 1 / 3) * 255),
      jsRound (hueToRgb p q (h / 360) * 255),
      jsRound (hueToRgb p q (h / 360 - 1 / 3) * 255))

/-- `UColor.getContrastColor`: rotate hue by 180°, same saturation,
lightness and alpha.  On a NaN channel every comparison in the source is
false and NaN flows through to all three output channels. -/
def getContrastColor (c : UColor) : UColor :=
  match c.r, c.g, c.b with
  | JSNum.num r0, JSNum.num g0, JSNum.num b0 =>
    let hsl := rgbToHsl r0 g0 b0
    let rgb := hslToRgb (jsMod (hsl.1 + 180) 360) hsl.2.1 hsl.2.2
    UColor.mk (JSNum.num (rgb.1 : ℚ)) (JSNum.num (rgb.2.1 : ℚ))
      (JSNum.num (rgb.2.2 : ℚ)) c.a
  | _, _, _ => UColor.mk JSNum.nan JSNum.nan JSNum.nan c.a

/-- `UColor.getPalette`: the color itself plus the hues at +120° and
+240°, all with the original alpha. -/
def getPalette (c : UColor) : List UColor :=
  match c.r, c.g, c.b with
  | JSNum.num r0, JSNum.num g0, JSNum.num b0 =>
    let hsl := rgbToHsl r0 g0 b0
    let rgb2 := hslToRgb (jsMod (hsl.1 + 120) 360) hsl.2.1 hsl.2.2
    let rgb3 := hslToRgb (jsMod (hsl.1 + 240) 360) hsl.2.1 hsl.2.2
    [c,
      UColor.mk (JSNum.num (rgb2.1 : ℚ)) (JSNum.num (rgb2.2.1 : ℚ))
        (JSNum.num (rgb2.2.2 : ℚ)) c.a,
      UColor.mk (JSNum.num (rgb3.1 : ℚ)) (JSNum.num (rgb3.2.1 : ℚ))
        (JSNum.num (rgb3.2.2 : ℚ)) c.a]
  | _, _, _ =>
    [c, UColor.mk JSNum.nan JSNum.nan JSNum.nan c.a,
      UColor.mk JSNum.nan JSNum.nan JSNum.nan c.a]

/-- Claim C8: on a gray input `r = g = b = v`, `rgbToHsl` returns
`h = 0, s = 0, l = v/255`, and `hslToRgb` fed back with that triple
returns `round(l * 255) = v` on every channel. -/
theorem achromatic_fixed (v : ℕ) (_hv : v ≤ 255) :
    rgbToHsl (v : ℚ) (v : ℚ) (v : ℚ) = (0, 0, (v : ℚ) / 255) ∧
    hslToRgb 0 0 ((v : ℚ) / 255) = ((v : ℤ), (v : ℤ), (v : ℤ)) ∧
    jsRound (((v : ℚ) / 255) * 255) = (v : ℤ) := by
  have hvq : ((v : ℚ) / 255) * 255 = ((v : ℤ) : ℚ) := by
    push_cast
    field_simp
  have hround : jsRound (((v : ℚ) / 255) * 255) = (v : ℤ) := by
    rw [hvq, jsRound_intCast]
  refine ⟨?_, ?_, hround⟩
  · simp only [rgbToHsl, max_self, min_self, if_pos rfl, Prod.mk.injEq]
    ring_nf
    simp
  · rw [hslToRgb, if_pos rfl, hround]

/-- Witness for `achromatic_fixed` at a concrete gray value. -/
theorem achromatic_fixed_witness :
    rgbToHsl ((27 : ℕ) : ℚ) ((27 : ℕ) : ℚ) ((27 : ℕ) : ℚ) =
      (0, 0, ((27 : ℕ) : ℚ) / 255) ∧
    hslToRgb 0 0 (((27 : ℕ) : ℚ) / 255) = (((27 : ℕ) : ℤ), ((27 : ℕ) : ℤ), ((27 : ℕ) : ℤ)) ∧
    jsRound ((((27 : ℕ) : ℚ) / 255) * 255) = ((27 : ℕ) : ℤ) :=
  achromatic_fixed 27 (by norm_num)

/-! ### hueToRgb segment evaluations and bounds (claims C9 and C5) -/

theorem hueToRgb_seg1 (p q t : ℚ) (h0 : 0 ≤ t) (h1 : t ≤ 1 / 6) :
    hueToRgb p q t = p + (q - p) * 6 * t := by
  simp only [hueToRgb]
  rw [if_neg (by linarith : ¬ t < 0), if_neg (by linarith : ¬ t > 1)]
  by_cases hc : t < 1 / 6
  · rw [if_pos hc]
  · have ht : t = 1 / 6 := le_antisymm h1 (not_lt.mp hc)
    rw [if_neg hc, if_pos (show t < 1 / 2 by rw [ht]; norm_num), ht]
    ring

theorem hueToRgb_seg2 (p q t : ℚ) (h0 : 1 / 6 ≤ t) (h1 : t ≤ 1 / 2) :
    hueToRgb p q t = q := by
  simp only [hueToRgb]
  rw [if_neg (by linarith : ¬ t < 0), if_neg (by linarith : ¬ t > 1),
    if_neg (by linarith : ¬ t < 1 / 6)]
  by_cases hc : t < 1 / 2
  · rw [if_pos hc]
  · have ht : t = 1 / 2 := le_antisymm h1 (not_lt.mp hc)
    rw [if_neg hc, if_pos (show t < 2 / 3 by rw [ht]; norm_num), ht]
    ring

theorem hueToRgb_seg3 (p q t : ℚ) (h0 : 1 / 2 ≤ t) (h1 : t ≤ 2 / 3) :
    hueToRgb p q t = p + (q - p) * (2 / 3 - t) * 6 := by
  simp only [hueToRgb]
  rw [if_neg (by linarith : ¬ t < 0), if_neg (by linarith : ¬ t > 1),
    if_neg (by linarith : ¬ t < 1 / 6), if_neg (by linarith : ¬ t < 1 / 2)]
  by_cases hc : t < 2 / 3
  · rw [if_pos hc]
  · have ht : t = 2 / 3 := le_antisymm h1 (not_lt.mp hc)
    rw [if_neg hc, ht]
    ring

theorem hueToRgb_seg4 (p q t : ℚ) (h0 : 2 / 3 ≤ t) (h1 : t ≤ 1) :
    hueToRgb p q t = p := by
  simp only [hueToRgb]
  rw [if_neg (by linarith : ¬ t < 0), if_neg (by linarith : ¬ t > 1),
    if_neg (by linarith : ¬ t < 1 / 6), if_neg (by linarith : ¬ t < 1 / 2),
    if_neg (by linarith : ¬ t < 2 / 3)]

theorem hueToRgb_wrap_neg (p q t : ℚ) (h1 : -1 ≤ t) (h2 : t < 0) :
    hueToRgb p q t = hueToRgb p q (t + 1) := by
  simp only [hueToRgb]
  rw [if_pos h2, if_neg (by linarith : ¬ t + 1 < 0), if_neg (by linarith : ¬ t + 1 > 1)]

theorem hueToRgb_wrap_gt (p q t : ℚ) (h1 : 1 < t) (h2 : t ≤ 2) :
    hueToRgb p q t = hueToRgb p q (t - 1) := by
  simp only [hueToRgb]
  rw [if_neg (by linarith : ¬ t < 0), if_pos (by linarith : t > 1),
    if_neg (by linarith : ¬ t - 1 < 0), if_neg (by linarith : ¬ t - 1 > 1)]

theorem hueToRgb_bounds (p q t : ℚ) (hp : 0 ≤ p) (hpq : p ≤ q) (hq : q ≤ 1)
    (h1 : -1 ≤ t) (h2 : t ≤ 2) :
    0 ≤ hueToRgb p q t ∧ hueToRgb p q t ≤ 1 := by
  have key : ∀ u : ℚ, 0 ≤ u → u ≤ 1 → 0 ≤ hueToRgb p q u ∧ hueToRgb p q u ≤ 1 := by
    intro u hu0 hu1
    rcases le_or_lt u (1 / 6) with hs | hs
    · rw [hueToRgb_seg1 p q u hu0 hs]
      constructor
      · nlinarith [mul_nonneg (sub_nonneg.mpr hpq) hu0]
      · nlinarith [mul_nonneg (sub_nonneg.mpr hpq) (by linarith : (0 : ℚ) ≤ 1 - 6 * u)]
    · rcases le_or_lt u (1 / 2) with hs2 | hs2
      · rw [hueToRgb_seg2 p q u (le_of_lt hs) hs2]
        exact ⟨le_trans hp hpq, hq⟩
      · rcases le_or_lt u (2 / 3) with hs3 | hs3
        · rw [hueToRgb_seg3 p q u (le_of_lt hs2) hs3]
          constructor
          · nlinarith [mul_nonneg (sub_nonneg.mpr hpq) (by linarith : (0 : ℚ) ≤ 2 / 3 - u)]
          · nlinarith [mul_nonneg (sub_nonneg.mpr hpq)
              (by linarith : (0 : ℚ) ≤ 1 - (2 / 3 - u) * 6)]
        · rw [hueToRgb_seg4 p q u (le_of_lt hs3) hu1]
          exact ⟨hp, le_trans hpq hq⟩
  rcases lt_or_le t 0 with h | h
  · rw [hueToRgb_wrap_neg p q t h1 h]
    exact key _ (by linarith) (by linarith)
  · rcases le_or_lt t 1 with h3 | h3
    · exact key t h h3
    · rw [hueToRgb_wrap_gt p q t h3 h2]
      exact key _ (by linarith) (by linarith)

theorem pq_bounds (s l : ℚ) (_hsne : s ≠ 0) (hs0 : 0 ≤ s) (hs1 : s ≤ 1)
    (hl0 : 0 ≤ l) (hl1 : l ≤ 1) :
    0 ≤ 2 * l - (if l < 1 / 2 then l * (1 + s) else l + s - l * s) ∧
    2 * l - (if l < 1 / 2 then l * (1 + s) else l + s - l * s) ≤
      (if l < 1 / 2 then l * (1 + s) else l + s - l * s) ∧
    (if l < 1 / 2 then l * (1 + s) else l + s - l * s) ≤ 1 := by
  split_ifs with h
  · refine ⟨?_, ?_, ?_⟩
    · nlinarith [mul_nonneg hl0 (by linarith : (0 : ℚ) ≤ 1 - s)]
    · nlinarith [mul_nonneg hl0 hs0]
    · nlinarith [mul_nonneg hl0 (by linarith : (0 : ℚ) ≤ 1 - s)]
  · refine ⟨?_, ?_, ?_⟩
    · nlinarith [mul_nonneg hs0 (by linarith : (0 : ℚ) ≤ 1 - l)]
    · nlinarith [mul_nonneg hs0 (by linarith : (0 : ℚ) ≤ 1 - l)]
    · nlinarith [mul_nonneg (by linarith : (0 : ℚ) ≤ 1 - s) (by linarith : (0 : ℚ) ≤ 1 - l)]

theorem jsRound_mem_byte (x : ℚ) (h0 : 0 ≤ x) (h1 : x ≤ 255) :
    0 ≤ jsRound x ∧ jsRound x ≤ 255 := by
  rw [jsRound]
  constructor
  · exact Int.le_floor.mpr (by push_cast; linarith)
  · have : ⌊x + 1 / 2⌋ < 256 := Int.floor_lt.mpr (by push_cast; linarith)
    omega

/-- Claim C9, counterexample: the wrap in `hueToRgb` adjusts `t` only once
each way, so a hue outside `[0, 360)` escapes the claimed range: at
`h = -360, s = 1, l = 1/2` the blue channel comes out as `-510`. -/
theorem hslToRgb_unrestricted_hue_cex :
    (hslToRgb (-360) 1 (1 / 2)).2.2 = -510 ∧ (hslToRgb (-360) 1 (1 / 2)).2.2 < 0 := by
  have hb : hslToRgb (-360) 1 (1 / 2) = (255, 0, -510) := by
    rw [hslToRgb, if_neg (by norm_num : (1 : ℚ) ≠ 0)]
    norm_num [hueToRgb, jsRound]
  rw [hb]
  norm_num

/-- Claim C9, amended: for a hue in `[0, 360)` (the only hues the class
ever feeds it) and `s, l ∈ [0, 1]`, `hslToRgb` returns integer channels
all in `[0, 255]`; internally `0 ≤ p ≤ q ≤ 1` and the hue-rotation helper
stays between `p` and `q`. -/
theorem hslToRgb_range (h s l : ℚ) (hh0 : 0 ≤ h) (hh1 : h < 360)
    (hs0 : 0 ≤ s) (hs1 : s ≤ 1) (hl0 : 0 ≤ l) (hl1 : l ≤ 1) :
    (0 ≤ (hslToRgb h s l).1 ∧ (hslToRgb h s l).1 ≤ 255) ∧
    (0 ≤ (hslToRgb h s l).2.1 ∧ (hslToRgb h s l).2.1 ≤ 255) ∧
    (0 ≤ (hslToRgb h s l).2.2 ∧ (hslToRgb h s l).2.2 ≤ 255) := by
  rw [hslToRgb]
  by_cases hz : s = 0
  · rw [if_pos hz]
    have := jsRound_mem_byte (l * 255) (by nlinarith) (by nlinarith)
    exact ⟨this, this, this⟩
  · rw [if_neg hz]
    obtain ⟨hp, hpq, hq⟩ := pq_bounds s l hz hs0 hs1 hl0 hl1
    have hu0 : 0 ≤ h / 360 := by linarith
    have hu1 : h / 360 < 1 := by linarith
    have br := hueToRgb_bounds _ _ (h / 360 + 1 / 3) hp hpq hq (by linarith) (by linarith)
    have bg := hueToRgb_bounds _ _ (h / 360) hp hpq hq (by linarith) (by linarith)
    have bb := hueToRgb_bounds _ _ (h / 360 - 1 / 3) hp hpq hq (by linarith) (by linarith)
    refine ⟨?_, ?_, ?_⟩
    · exact jsRound_mem_byte _ (by nlinarith [br.1]) (by nlinarith [br.2])
    · exact jsRound_mem_byte _ (by nlinarith [bg.1]) (by nlinarith [bg.2])
    · exact jsRound_mem_byte _ (by nlinarith [bb.1]) (by nlinarith [bb.2])

/-- Witness for `hslToRgb_range` at a concrete in-range HSL triple. -/
theorem hslToRgb_range_witness :
    (0 ≤ (hslToRgb 200 (1 / 2) (1 / 4)).1 ∧ (hslToRgb 200 (1 / 2) (1 / 4)).1 ≤ 255) ∧
    (0 ≤ (hslToRgb 200 (1 / 2) (1 / 4)).2.1 ∧ (hslToRgb 200 (1 / 2) (1 / 4)).2.1 ≤ 255) ∧
    (0 ≤ (hslToRgb 200 (1 / 2) (1 / 4)).2.2 ∧ (hslToRgb 200 (1 / 2) (1 / 4)).2.2 ≤ 255) :=
  hslToRgb_range 200 (1 / 2) (1 / 4) (by norm_num) (by norm_num) (by norm_num)
    (by norm_num) (by norm_num) (by norm_num)

/-! ### The complement identity behind getContrastColor (claim C5) -/

theorem jsMod_small (a : ℚ) (h0 : 0 ≤ a) (h1 : a < 360) : jsMod a 360 = a := by
  rw [jsMod, ratTrunc, if_pos (by positivity : (0 : ℚ) ≤ a / 360)]
  have hf : ⌊a / 360⌋ = 0 := by
    rw [Int.floor_eq_zero_iff]
    constructor
    · positivity
    · rw [div_lt_one (by norm_num : (0 : ℚ) < 360)]
      simpa using h1
  rw [hf]
  push_cast
  ring

theorem jsMod_once (a : ℚ) (h0 : 360 ≤ a) (h1 : a < 720) : jsMod a 360 = a - 360 := by
  rw [jsMod, ratTrunc, if_pos (by positivity : (0 : ℚ) ≤ a / 360)]
  have hf : ⌊a / 360⌋ = 1 := by
    rw [Int.floor_eq_iff]
    constructor
    · rw [le_div_iff (by norm_num : (0 : ℚ) < 360)]
      push_cast
      linarith
    · rw [div_lt_iff (by norm_num : (0 : ℚ) < 360)]
      push_cast
      linarith
  rw [hf]
  push_cast
  ring

theorem q_eq_max (mx mn : ℚ) (hlt : mn < mx) (hmx1 : mx ≤ 1) (hmn0 : 0 ≤ mn) :
    (if (mx + mn) / 2 < 1 / 2 then
      (mx + mn) / 2 *
        (1 + (if (mx + mn) / 2 > 1 / 2 then (mx - mn) / (2 - mx - mn)
          else (mx - mn) / (mx + mn)))
    else
      (mx + mn) / 2 +
        (if (mx + mn) / 2 > 1 / 2 then (mx - mn) / (2 - mx - mn)
          else (mx - mn) / (mx + mn)) -
        (mx + mn) / 2 *
          (if (mx + mn) / 2 > 1 / 2 then (mx - mn) / (2 - mx - mn)
            else (mx - mn) / (mx + mn))) = mx := by
  have hmxpos : 0 < mx := lt_of_le_of_lt hmn0 hlt
  have hsum : 0 < mx + mn := by linarith
  have hmn1 : mn < 1 := lt_of_lt_of_le hlt hmx1
  by_cases hl : (mx + mn) / 2 < 1 / 2
  · rw [if_pos hl, if_neg (by linarith : ¬ (mx + mn) / 2 > 1 / 2)]
    field_simp
    ring
  · by_cases hg : (mx + mn) / 2 > 1 / 2
    · have h2 : 0 < 2 - mx - mn := by linarith
      rw [if_neg hl, if_pos hg]
      field_simp
      ring
    · have hs1 : mx + mn = 1 := by
        have := not_lt.mp hl
        have := not_lt.mp hg
        linarith
      rw [if_neg hl, if_neg hg, hs1]
      field_simp
      linarith
  
theorem s_pos (mx mn : ℚ) (hlt : mn < mx) (hmx1 : mx ≤ 1) (hmn0 : 0 ≤ mn) :
    0 < (if (mx + mn) / 2 > 1 / 2 then (mx - mn) / (2 - mx - mn)
      else (mx - mn) / (mx + mn)) := by
  have hmxpos : 0 < mx := lt_of_le_of_lt hmn0 hlt
  have hmn1 : mn < 1 := lt_of_lt_of_le hlt hmx1
  split_ifs with h
  · exact div_pos (by linarith) (by linarith)
  · exact div_pos (by linarith) (by linarith)

/-- Hue sector `h0 ∈ [0, 1]` (red is max, green ≥ blue): rotating by 180°
sends the channels to `(mn, mx - (mx - mn) h0, mx)` exactly. -/
theorem complement_sector_A (mx mn h0 : ℚ) (hmn0 : 0 ≤ mn) (hlt : mn < mx)
    (hmx1 : mx ≤ 1) (h00 : 0 ≤ h0) (h01 : h0 ≤ 1) :
    hslToRgb (jsMod (h0 * 60 + 180) 360)
      (if (mx + mn) / 2 > 1 / 2 then (mx - mn) / (2 - mx - mn)
        else (mx - mn) / (mx + mn))
      ((mx + mn) / 2) =
      (jsRound (mn * 255), jsRound ((mx - (mx - mn) * h0) * 255),
        jsRound (mx * 255)) := by
  have hq := q_eq_max mx mn hlt hmx1 hmn0
  have hS := s_pos mx mn hlt hmx1 hmn0
  rw [jsMod_small _ (by linarith) (by linarith)]
  simp only [hslToRgb]
  rw [if_neg (ne_of_gt hS), hq]
  have hp : 2 * ((mx + mn) / 2) - mx = mn := by ring
  rw [hp]
  have hur : (h0 * 60 + 180) / 360 + 1 / 3 = h0 / 6 + 5 / 6 := by ring
  have hug : (h0 * 60 + 180) / 360 = h0 / 6 + 1 / 2 := by ring
  have hub : (h0 * 60 + 180) / 360 - 1 / 3 = h0 / 6 + 1 / 6 := by ring
  rw [hur, hub, hug]
  rw [hueToRgb_seg4 mn mx _ (by linarith) (by linarith)]
  rw [hueToRgb_seg3 mn mx _ (by linarith) (by linarith)]
  rw [hueToRgb_seg2 mn mx _ (by linarith) (by linarith)]
  refine congrArg₂ _ (congrArg jsRound (by ring)) (congrArg₂ _ (congrArg jsRound (by ring)) rfl)

/-- Hue sector `h0 ∈ [1, 2]` (green max, blue min). -/
theorem complement_sector_B (mx mn h0 : ℚ) (hmn0 : 0 ≤ mn) (hlt : mn < mx)
    (hmx1 : mx ≤ 1) (h00 : 1 ≤ h0) (h01 : h0 ≤ 2) :
    hslToRgb (jsMod (h0 * 60 + 180) 360)
      (if (mx + mn) / 2 > 1 / 2 then (mx - mn) / (2 - mx - mn)
        else (mx - mn) / (mx + mn))
      ((mx + mn) / 2) =
      (jsRound ((mn + (mx - mn) * (h0 - 1)) * 255), jsRound (mn * 255),
        jsRound (mx * 255)) := by
  have hq := q_eq_max mx mn hlt hmx1 hmn0
  have hS := s_pos mx mn hlt hmx1 hmn0
  rw [jsMod_small _ (by linarith) (by linarith)]
  simp only [hslToRgb]
  rw [if_neg (ne_of_gt hS), hq]
  have hp : 2 * ((mx + mn) / 2) - mx = mn := by ring
  rw [hp]
  have hur : (h0 * 60 + 180) / 360 + 1 / 3 = h0 / 6 + 5 / 6 := by ring
  have hub : (h0 * 60 + 180) / 360 - 1 / 3 = h0 / 6 + 1 / 6 := by ring
  have hug : (h0 * 60 + 180) / 360 = h0 / 6 + 1 / 2 := by ring
  rw [hur, hub, hug]
  have hrv : hueToRgb mn mx (h0 / 6 + 5 / 6) = mn + (mx - mn) * 6 * (h0 / 6 - 1 / 6) := by
    by_cases hgt : 1 < h0 / 6 + 5 / 6
    · rw [hueToRgb_wrap_gt mn mx _ hgt (by linarith)]
      have he : h0 / 6 + 5 / 6 - 1 = h0 / 6 - 1 / 6 := by ring
      rw [he]
      exact hueToRgb_seg1 mn mx _ (by linarith) (by linarith)
    · have h1 : h0 = 1 := by
        have := not_lt.mp hgt
        linarith
      rw [hueToRgb_seg4 mn mx _ (by rw [h1]; norm_num) (by rw [h1]; norm_num), h1]
      ring
  rw [hrv,
    hueToRgb_seg4 mn mx (h0 / 6 + 1 / 2) (by linarith) (by linarith),
    hueToRgb_seg2 mn mx (h0 / 6 + 1 / 6) (by linarith) (by linarith)]
  exact congrArg₂ _ (congrArg jsRound (by ring)) rfl

/-- Hue sector `h0 ∈ [2, 3]` (green max, red min); the hue `h0 = 3`
rotates onto `360`, which the JS `%` sends to `0`. -/
theorem complement_sector_C (mx mn h0 : ℚ) (hmn0 : 0 ≤ mn) (hlt : mn < mx)
    (hmx1 : mx ≤ 1) (h00 : 2 ≤ h0) (h01 : h0 ≤ 3) :
    hslToRgb (jsMod (h0 * 60 + 180) 360)
      (if (mx + mn) / 2 > 1 / 2 then (mx - mn) / (2 - mx - mn)
        else (mx - mn) / (mx + mn))
      ((mx + mn) / 2) =
      (jsRound (mx * 255), jsRound (mn * 255),
        jsRound ((mn + (mx - mn) * (3 - h0)) * 255)) := by
  have hq := q_eq_max mx mn hlt hmx1 hmn0
  have hS := s_pos mx mn hlt hmx1 hmn0
  have hp : 2 * ((mx + mn) / 2) - mx = mn := by ring
  by_cases h3 : h0 < 3
  · rw [jsMod_small _ (by linarith) (by linarith)]
    simp only [hslToRgb]
    rw [if_neg (ne_of_gt hS), hq, hp]
    have hur : (h0 * 60 + 180) / 360 + 1 / 3 = h0 / 6 + 5 / 6 := by ring
    have hub : (h0 * 60 + 180) / 360 - 1 / 3 = h0 / 6 + 1 / 6 := by ring
    have hug : (h0 * 60 + 180) / 360 = h0 / 6 + 1 / 2 := by ring
    rw [hur, hub, hug]
    have hrv : hueToRgb mn mx (h0 / 6 + 5 / 6) = mx := by
      rw [hueToRgb_wrap_gt mn mx _ (by linarith) (by linarith)]
      have he : h0 / 6 + 5 / 6 - 1 = h0 / 6 - 1 / 6 := by ring
      rw [he]
      exact hueToRgb_seg2 mn mx _ (by linarith) (by linarith)
    rw [hrv, hueToRgb_seg4 mn mx (h0 / 6 + 1 / 2) (by linarith) (by linarith),
      hueToRgb_seg3 mn mx (h0 / 6 + 1 / 6) (by linarith) (by linarith)]
    exact congrArg₂ _ rfl (congrArg₂ _ rfl (congrArg jsRound (by ring)))
  · have h3e : h0 = 3 := le_antisymm h01 (not_lt.mp h3)
    subst h3e
    have hm : ((3 : ℚ) * 60 + 180) = 360 := by norm_num
    rw [hm, jsMod_once 360 (by norm_num) (by norm_num)]
    have hz : (360 : ℚ) - 360 = 0 := by norm_num
    rw [hz]
    simp only [hslToRgb]
    rw [if_neg (ne_of_gt hS), hq, hp]
    have hur : (0 : ℚ) / 360 + 1 / 3 = 1 / 3 := by norm_num
    have hub : (0 : ℚ) / 360 - 1 / 3 = -(1 / 3) := by norm_num
    have hug : (0 : ℚ) / 360 = 0 := by norm_num
    rw [hur, hub, hug]
    have hbv : hueToRgb mn mx (-(1 / 3)) = mn := by
      rw [hueToRgb_wrap_neg mn mx _ (by norm_num) (by norm_num)]
      have he : -(1 / 3 : ℚ) + 1 = 2 / 3 := by norm_num
      rw [he]
      exact hueToRgb_seg4 mn mx _ (by norm_num) (by norm_num)
    rw [hueToRgb_seg2 mn mx (1 / 3) (by norm_num) (by norm_num),
      hueToRgb_seg1 mn mx 0 (by norm_num) (by norm_num), hbv]
    exact congrArg₂ _ rfl (congrArg₂ _ (congrArg jsRound (by ring)) (congrArg jsRound (by ring)))

/-- Hue sector `h0 ∈ [3, 4]` (blue max, red min). -/
theorem complement_sector_D (mx mn h0 : ℚ) (hmn0 : 0 ≤ mn) (hlt : mn < mx)
    (hmx1 : mx ≤ 1) (h00 : 3 ≤ h0) (h01 : h0 ≤ 4) :
    hslToRgb (jsMod (h0 * 60 + 180) 360)
      (if (mx + mn) / 2 > 1 / 2 then (mx - mn) / (2 - mx - mn)
        else (mx - mn) / (mx + mn))
      ((mx + mn) / 2) =
      (jsRound (mx * 255), jsRound ((mn + (mx - mn) * (h0 - 3)) * 255),
        jsRound (mn * 255)) := by
  have hq := q_eq_max mx mn hlt hmx1 hmn0
  have hS := s_pos mx mn hlt hmx1 hmn0
  rw [jsMod_once _ (by linarith) (by linarith)]
  simp only [hslToRgb]
  rw [if_neg (ne_of_gt hS), hq]
  have hp : 2 * ((mx + mn) / 2) - mx = mn := by ring
  rw [hp]
  have hur : (h0 * 60 + 180 - 360) / 360 + 1 / 3 = h0 / 6 - 1 / 6 := by ring
  have hub : (h0 * 60 + 180 - 360) / 360 - 1 / 3 = h0 / 6 - 5 / 6 := by ring
  have hug : (h0 * 60 + 180 - 360) / 360 = h0 / 6 - 1 / 2 := by ring
  rw [hur, hub, hug]
  have hbv : hueToRgb mn mx (h0 / 6 - 5 / 6) = mn := by
    rw [hueToRgb_wrap_neg mn mx _ (by linarith) (by linarith)]
    have he : h0 / 6 - 5 / 6 + 1 = h0 / 6 + 1 / 6 := by ring
    rw [he]
    exact hueToRgb_seg4 mn mx _ (by linarith) (by linarith)
  rw [hueToRgb_seg2 mn mx (h0 / 6 - 1 / 6) (by linarith) (by linarith),
    hueToRgb_seg1 mn mx (h0 / 6 - 1 / 2) (by linarith) (by linarith), hbv]
  exact congrArg₂ _ rfl (congrArg₂ _ (congrArg jsRound (by ring)) rfl)

/-- Hue sector `h0 ∈ [4, 5]` (blue max, green min). -/
theorem complement_sector_E (mx mn h0 : ℚ) (hmn0 : 0 ≤ mn) (hlt : mn < mx)
    (hmx1 : mx ≤ 1) (h00 : 4 ≤ h0) (h01 : h0 ≤ 5) :
    hslToRgb (jsMod (h0 * 60 + 180) 360)
      (if (mx + mn) / 2 > 1 / 2 then (mx - mn) / (2 - mx - mn)
        else (mx - mn) / (mx + mn))
      ((mx + mn) / 2) =
      (jsRound ((mn + (mx - mn) * (5 - h0)) * 255), jsRound (mx * 255),
        jsRound (mn * 255)) := by
  have hq := q_eq_max mx mn hlt hmx1 hmn0
  have hS := s_pos mx mn hlt hmx1 hmn0
  rw [jsMod_once _ (by linarith) (by linarith)]
  simp only [hslToRgb]
  rw [if_neg (ne_of_gt hS), hq]
  have hp : 2 * ((mx + mn) / 2) - mx = mn := by ring
  rw [hp]
  have hur : (h0 * 60 + 180 - 360) / 360 + 1 / 3 = h0 / 6 - 1 / 6 := by ring
  have hub : (h0 * 60 + 180 - 360) / 360 - 1 / 3 = h0 / 6 - 5 / 6 := by ring
  have hug : (h0 * 60 + 180 - 360) / 360 = h0 / 6 - 1 / 2 := by ring
  rw [hur, hub, hug]
  have hbv : hueToRgb mn mx (h0 / 6 - 5 / 6) = mn := by
    by_cases hneg : h0 / 6 - 5 / 6 < 0
    · rw [hueToRgb_wrap_neg mn mx _ (by linarith) hneg]
      have he : h0 / 6 - 5 / 6 + 1 = h0 / 6 + 1 / 6 := by ring
      rw [he]
      exact hueToRgb_seg4 mn mx _ (by linarith) (by linarith)
    · have h5 : h0 = 5 := by
        have := not_lt.mp hneg
        linarith
      rw [hueToRgb_seg1 mn mx _ (by rw [h5]; norm_num) (by rw [h5]; norm_num), h5]
      ring
  rw [hueToRgb_seg3 mn mx (h0 / 6 - 1 / 6) (by linarith) (by linarith),
    hueToRgb_seg2 mn mx (h0 / 6 - 1 / 2) (by linarith) (by linarith), hbv]
  exact congrArg₂ _ (congrArg jsRound (by ring)) rfl

/-- Hue sector `h0 ∈ [5, 6]` (red max, green min). -/
theorem complement_sector_F (mx mn h0 : ℚ) (hmn0 : 0 ≤ mn) (hlt : mn < mx)
    (hmx1 : mx ≤ 1) (h00 : 5 ≤ h0) (h01 : h0 ≤ 6) :
    hslToRgb (jsMod (h0 * 60 + 180) 360)
      (if (mx + mn) / 2 > 1 / 2 then (mx - mn) / (2 - mx - mn)
        else (mx - mn) / (mx + mn))
      ((mx + mn) / 2) =
      (jsRound (mn * 255), jsRound (mx * 255),
        jsRound ((mn + (mx - mn) * (h0 - 5)) * 255)) := by
  have hq := q_eq_max mx mn hlt hmx1 hmn0
  have hS := s_pos mx mn hlt hmx1 hmn0
  rw [jsMod_once _ (by linarith) (by linarith)]
  simp only [hslToRgb]
  rw [if_neg (ne_of_gt hS), hq]
  have hp : 2 * ((mx + mn) / 2) - mx = mn := by ring
  rw [hp]
  have hur : (h0 * 60 + 180 - 360) / 360 + 1 / 3 = h0 / 6 - 1 / 6 := by ring
  have hub : (h0 * 60 + 180 - 360) / 360 - 1 / 3 = h0 / 6 - 5 / 6 := by ring
  have hug : (h0 * 60 + 180 - 360) / 360 = h0 / 6 - 1 / 2 := by ring
  rw [hur, hub, hug]
  rw [hueToRgb_seg4 mn mx (h0 / 6 - 1 / 6) (by linarith) (by linarith),
    hueToRgb_seg2 mn mx (h0 / 6 - 1 / 2) (by linarith) (by linarith),
    hueToRgb_seg1 mn mx (h0 / 6 - 5 / 6) (by linarith) (by linarith)]
  exact congrArg₂ _ rfl (congrArg₂ _ rfl (congrArg jsRound (by ring)))

set_option maxHeartbeats 3200000 in
/-- Rotating the hue by 180° and converting back sends every channel of an
in-range color exactly to `max + min - channel` (before rounding, and the
value is already of that exact form). -/
theorem contrast_exact (r g b : ℚ) (hr0 : 0 ≤ r) (hr1 : r ≤ 255) (hg0 : 0 ≤ g)
    (hg1 : g ≤ 255) (hb0 : 0 ≤ b) (hb1 : b ≤ 255) :
    hslToRgb (jsMod ((rgbToHsl r g b).1 + 180) 360) (rgbToHsl r g b).2.1
        (rgbToHsl r g b).2.2 =
      (jsRound (max (max r g) b + min (min r g) b - r),
       jsRound (max (max r g) b + min (min r g) b - g),
       jsRound (max (max r g) b + min (min r g) b - b)) := by
  have hx0 : (0 : ℚ) ≤ r / 255 := by positivity
  have hy0 : (0 : ℚ) ≤ g / 255 := by positivity
  have hz0 : (0 : ℚ) ≤ b / 255 := by positivity
  have hx1 : r / 255 ≤ 1 := by linarith
  have hy1 : g / 255 ≤ 1 := by linarith
  have hz1 : b / 255 ≤ 1 := by linarith
  have exm : r / 255 ≤ max (max (r / 255) (g / 255)) (b / 255) :=
    le_trans (le_max_left _ _) (le_max_left _ _)
  have eym : g / 255 ≤ max (max (r / 255) (g / 255)) (b / 255) :=
    le_trans (le_max_right _ _) (le_max_left _ _)
  have ezm : b / 255 ≤ max (max (r / 255) (g / 255)) (b / 255) := le_max_right _ _
  have emx : min (min (r / 255) (g / 255)) (b / 255) ≤ r / 255 :=
    le_trans (min_le_left _ _) (min_le_left _ _)
  have emy : min (min (r / 255) (g / 255)) (b / 255) ≤ g / 255 :=
    le_trans (min_le_left _ _) (min_le_right _ _)
  have emz : min (min (r / 255) (g / 255)) (b / 255) ≤ b / 255 := min_le_right _ _
  by_cases hach : max (max (r / 255) (g / 255)) (b / 255) =
      min (min (r / 255) (g / 255)) (b / 255)
  · have hxe : r / 255 = max (max (r / 255) (g / 255)) (b / 255) :=
      le_antisymm exm (by rw [hach]; exact emx)
    have hye : g / 255 = max (max (r / 255) (g / 255)) (b / 255) :=
      le_antisymm eym (by rw [hach]; exact emy)
    have hze : b / 255 = max (max (r / 255) (g / 255)) (b / 255) :=
      le_antisymm ezm (by rw [hach]; exact emz)
    have hrg : g = r := by
      have := hye.trans hxe.symm
      linarith
    have hrb : b = r := by
      have := hze.trans hxe.symm
      linarith
    rw [hrg, hrb]
    have hHSL : rgbToHsl r r r = (0, 0, (r / 255 + r / 255) / 2) := by
      simp only [rgbToHsl, max_self, min_self]
      norm_num
    rw [hHSL]
    show hslToRgb (jsMod (0 + 180) 360) 0 ((r / 255 + r / 255) / 2) = _
    rw [hslToRgb, if_pos rfl, max_self, max_self, min_self, min_self]
    exact congrArg₂ _ (congrArg jsRound (by ring))
      (congrArg₂ _ (congrArg jsRound (by ring)) (congrArg jsRound (by ring)))
  · have hmxmn : min (min (r / 255) (g / 255)) (b / 255) <
        max (max (r / 255) (g / 255)) (b / 255) :=
      lt_of_le_of_ne (le_trans emx exm) (fun h => hach h.symm)
    by_cases hcr : max (max (r / 255) (g / 255)) (b / 255) = r / 255
    · by_cases hgb : g / 255 < b / 255
      · -- red max, green min: sector F
        have hbx : b / 255 ≤ r / 255 := hcr ▸ ezm
        have hgx : g / 255 ≤ r / 255 := hcr ▸ eym
        have hmn : min (min (r / 255) (g / 255)) (b / 255) = g / 255 := by
          rw [min_eq_right hgx, min_eq_left (le_of_lt hgb)]
        have hd : g / 255 < r / 255 := by
          rw [hcr, hmn] at hmxmn
          exact hmxmn
        have hdne : r / 255 - g / 255 ≠ 0 := sub_ne_zero.mpr (ne_of_gt hd)
        have hHSL : rgbToHsl r g b =
            (((g / 255 - b / 255) / (r / 255 - g / 255) + 6) * 60,
             (if (r / 255 + g / 255) / 2 > 1 / 2 then
               (r / 255 - g / 255) / (2 - r / 255 - g / 255)
              else (r / 255 - g / 255) / (r / 255 + g / 255)),
             (r / 255 + g / 255) / 2) := by
          simp only [rgbToHsl]
          rw [hmn, hcr]
          rw [if_neg (sub_ne_zero.mp (by simpa using sub_ne_zero.mpr (ne_of_gt hd))),
            if_pos rfl, if_pos hgb]
        rw [hHSL]
        show hslToRgb (jsMod (((g / 255 - b / 255) / (r / 255 - g / 255) + 6) * 60 + 180) 360)
            _ _ = _
        rw [complement_sector_F (r / 255) (g / 255)
          ((g / 255 - b / 255) / (r / 255 - g / 255) + 6) hy0 hd hx1
          (by
            have : -(1 : ℚ) ≤ (g / 255 - b / 255) / (r / 255 - g / 255) := by
              rw [neg_le, ← neg_div]
              rw [div_le_one (by linarith)]
              linarith
            linarith)
          (by
            have : (g / 255 - b / 255) / (r / 255 - g / 255) ≤ 0 :=
              div_nonpos_of_nonpos_of_nonneg (by linarith) (by linarith)
            linarith)]
        rw [max_eq_left (show (g : ℚ) ≤ r by linarith),
          max_eq_left (show (b : ℚ) ≤ r by linarith),
          min_eq_right (show (g : ℚ) ≤ r by linarith),
          min_eq_left (show (g : ℚ) ≤ b by linarith)]
        refine congrArg₂ _ (congrArg jsRound (by ring))
          (congrArg₂ _ (congrArg jsRound (by ring)) (congrArg jsRound ?_))
        field_simp [sub_ne_zero.mpr (show (g : ℚ) < r by linarith).ne']
        ring
      · -- red max, blue min: sector A
        have hbz : b / 255 ≤ g / 255 := not_lt.mp hgb
        have hbx : b / 255 ≤ r / 255 := hcr ▸ ezm
        have hgx : g / 255 ≤ r / 255 := hcr ▸ eym
        have hmn : min (min (r / 255) (g / 255)) (b / 255) = b / 255 := by
          rw [min_eq_right hgx, min_eq_right hbz]
        have hd : b / 255 < r / 255 := by
          rw [hcr, hmn] at hmxmn
          exact hmxmn
        have hdne : r / 255 - b / 255 ≠ 0 := sub_ne_zero.mpr (ne_of_gt hd)
        have hHSL : rgbToHsl r g b =
            (((g / 255 - b / 255) / (r / 255 - b / 255) + 0) * 60,
             (if (r / 255 + b / 255) / 2 > 1 / 2 then
               (r / 255 - b / 255) / (2 - r / 255 - b / 255)
              else (r / 255 - b / 255) / (r / 255 + b / 255)),
             (r / 255 + b / 255) / 2) := by
          simp only [rgbToHsl]
          rw [hmn, hcr]
          rw [if_neg (sub_ne_zero.mp (by simpa using sub_ne_zero.mpr (ne_of_gt hd))),
            if_pos rfl, if_neg hgb]
        rw [hHSL]
        show hslToRgb (jsMod (((g / 255 - b / 255) / (r / 255 - b / 255) + 0) * 60 + 180) 360)
            _ _ = _
        rw [add_zero]
        rw [complement_sector_A (r / 255) (b / 255)
          ((g / 255 - b / 255) / (r / 255 - b / 255)) hz0 hd hx1
          (div_nonneg (by linarith) (by linarith))
          ((div_le_one (by linarith)).mpr (by linarith))]
        rw [max_eq_left (show (g : ℚ) ≤ r by linarith),
          max_eq_left (show (b : ℚ) ≤ r by linarith),
          min_eq_right (show (g : ℚ) ≤ r by linarith),
          min_eq_right (show (b : ℚ) ≤ g by linarith)]
        refine congrArg₂ _ (congrArg jsRound (by ring))
          (congrArg₂ _ (congrArg jsRound ?_) (congrArg jsRound (by ring)))
        field_simp [sub_ne_zero.mpr (show (b : ℚ) < r by linarith).ne']
        ring
    · by_cases hcg : max (max (r / 255) (g / 255)) (b / 255) = g / 255
      · have hxy : r / 255 < g / 255 := by
          refine lt_of_le_of_ne (hcg ▸ exm) (fun he => hcr ?_)
          rw [hcg, he]
        have hby : b / 255 ≤ g / 255 := hcg ▸ ezm
        rcases le_or_lt (r / 255) (b / 255) with hxz | hxz
        · -- green max, red min: sector C
          have hmn : min (min (r / 255) (g / 255)) (b / 255) = r / 255 := by
            rw [min_eq_left (le_of_lt hxy), min_eq_left hxz]
          have hd : r / 255 < g / 255 := hxy
          have hdne : g / 255 - r / 255 ≠ 0 := sub_ne_zero.mpr (ne_of_gt hd)
          have hHSL : rgbToHsl r g b =
              (((b / 255 - r / 255) / (g / 255 - r / 255) + 2) * 60,
               (if (g / 255 + r / 255) / 2 > 1 / 2 then
                 (g / 255 - r / 255) / (2 - g / 255 - r / 255)
                else (g / 255 - r / 255) / (g / 255 + r / 255)),
               (g / 255 + r / 255) / 2) := by
            simp only [rgbToHsl]
            rw [hmn, hcg]
            rw [if_neg (sub_ne_zero.mp (by simpa using sub_ne_zero.mpr (ne_of_gt hd))),
              if_neg (by simpa using ne_of_gt hd), if_pos rfl]
          rw [hHSL]
          show hslToRgb
              (jsMod (((b / 255 - r / 255) / (g / 255 - r / 255) + 2) * 60 + 180) 360)
              _ _ = _
          rw [complement_sector_C (g / 255) (r / 255)
            ((b / 255 - r / 255) / (g / 255 - r / 255) + 2) hx0 hd hy1
            (by
              have : (0 : ℚ) ≤ (b / 255 - r / 255) / (g / 255 - r / 255) :=
                div_nonneg (by linarith) (by linarith)
              linarith)
            (by
              have : (b / 255 - r / 255) / (g / 255 - r / 255) ≤ 1 :=
                (div_le_one (by linarith)).mpr (by linarith)
              linarith)]
          rw [max_eq_right (show (r : ℚ) ≤ g by linarith),
            max_eq_left (show (b : ℚ) ≤ g by linarith),
            min_eq_left (show (r : ℚ) ≤ g by linarith),
            min_eq_left (show (r : ℚ) ≤ b by linarith)]
          refine congrArg₂ _ (congrArg jsRound (by ring))
            (congrArg₂ _ (congrArg jsRound (by ring)) (congrArg jsRound ?_))
          field_simp [sub_ne_zero.mpr (show (r : ℚ) < g by linarith).ne']
          ring
        · -- green max, blue min: sector B
          have hmn : min (min (r / 255) (g / 255)) (b / 255) = b / 255 := by
            rw [min_eq_left (le_of_lt hxy), min_eq_right (le_of_lt hxz)]
          have hd : b / 255 < g / 255 := lt_of_lt_of_le hxz (le_of_lt hxy)
          have hdne : g / 255 - b / 255 ≠ 0 := sub_ne_zero.mpr (ne_of_gt hd)
          have hHSL : rgbToHsl r g b =
              (((b / 255 - r / 255) / (g / 255 - b / 255) + 2) * 60,
               (if (g / 255 + b / 255) / 2 > 1 / 2 then
                 (g / 255 - b / 255) / (2 - g / 255 - b / 255)
                else (g / 255 - b / 255) / (g / 255 + b / 255)),
               (g / 255 + b / 255) / 2) := by
            simp only [rgbToHsl]
            rw [hmn, hcg]
            rw [if_neg (sub_ne_zero.mp (by simpa using sub_ne_zero.mpr (ne_of_gt hd))),
              if_neg (by simpa using ne_of_gt hxy), if_pos rfl]
          rw [hHSL]
          show hslToRgb
              (jsMod (((b / 255 - r / 255) / (g / 255 - b / 255) + 2) * 60 + 180) 360)
              _ _ = _
          rw [complement_sector_B (g / 255) (b / 255)
            ((b / 255 - r / 255) / (g / 255 - b / 255) + 2) hz0 hd hy1
            (by
              have : -(1 : ℚ) ≤ (b / 255 - r / 255) / (g / 255 - b / 255) := by
                rw [neg_le, ← neg_div, div_le_one (by linarith)]
                linarith
              linarith)
            (by
              have : (b / 255 - r / 255) / (g / 255 - b / 255) ≤ 0 :=
                div_nonpos_of_nonpos_of_nonneg (by linarith) (by linarith)
              linarith)]
          rw [max_eq_right (show (r : ℚ) ≤ g by linarith),
            max_eq_left (show (b : ℚ) ≤ g by linarith),
            min_eq_left (show (r : ℚ) ≤ g by linarith),
            min_eq_right (show (b : ℚ) ≤ r by linarith)]
          refine congrArg₂ _ (congrArg jsRound ?_)
            (congrArg₂ _ (congrArg jsRound (by ring)) (congrArg jsRound (by ring)))
          field_simp [sub_ne_zero.mpr (show (b : ℚ) < g by linarith).ne']
          ring
      · have hcb : max (max (r / 255) (g / 255)) (b / 255) = b / 255 := by
          rcases max_choice (max (r / 255) (g / 255)) (b / 255) with h | h
          · rcases max_choice (r / 255) (g / 255) with h2 | h2
            · exact absurd (h.trans h2) hcr
            · exact absurd (h.trans h2) hcg
          · exact h
        have hxz : r / 255 < b / 255 := by
          refine lt_of_le_of_ne (hcb ▸ exm) (fun he => hcr ?_)
          rw [hcb, he]
        have hyz : g / 255 < b / 255 := by
          refine lt_of_le_of_ne (hcb ▸ eym) (fun he => hcg ?_)
          rw [hcb, he]
        rcases le_or_lt (g / 255) (r / 255) with hyx | hyx
        · -- blue max, green min: sector E
          have hmn : min (min (r / 255) (g / 255)) (b / 255) = g / 255 := by
            rw [min_eq_right hyx, min_eq_left (le_of_lt hyz)]
          have hd : g / 255 < b / 255 := hyz
          have hdne : b / 255 - g / 255 ≠ 0 := sub_ne_zero.mpr (ne_of_gt hd)
          have hHSL : rgbToHsl r g b =
              (((r / 255 - g / 255) / (b / 255 - g / 255) + 4) * 60,
               (if (b / 255 + g / 255) / 2 > 1 / 2 then
                 (b / 255 - g / 255) / (2 - b / 255 - g / 255)
                else (b / 255 - g / 255) / (b / 255 + g / 255)),
               (b / 255 + g / 255) / 2) := by
            simp only [rgbToHsl]
            rw [hmn, hcb]
            rw [if_neg (sub_ne_zero.mp (by simpa using sub_ne_zero.mpr (ne_of_gt hd))),
              if_neg (by simpa using ne_of_gt hxz), if_neg (by simpa using ne_of_gt hyz)]
          rw [hHSL]
          show hslToRgb
              (jsMod (((r / 255 - g / 255) / (b / 255 - g / 255) + 4) * 60 + 180) 360)
              _ _ = _
          rw [complement_sector_E (b / 255) (g / 255)
            ((r / 255 - g / 255) / (b / 255 - g / 255) + 4) hy0 hd hz1
            (by
              have : (0 : ℚ) ≤ (r / 255 - g / 255) / (b / 255 - g / 255) :=
                div_nonneg (by linarith) (by linarith)
              linarith)
            (by
              have : (r / 255 - g / 255) / (b / 255 - g / 255) ≤ 1 :=
                (div_le_one (by linarith)).mpr (by linarith)
              linarith)]
          rw [max_eq_left (show (g : ℚ) ≤ r by linarith),
            max_eq_right (show (r : ℚ) ≤ b by linarith),
            min_eq_right (show (g : ℚ) ≤ r by linarith),
            min_eq_left (show (g : ℚ) ≤ b by linarith)]
          refine congrArg₂ _ (congrArg jsRound ?_)
            (congrArg₂ _ (congrArg jsRound (by ring)) (congrArg jsRound (by ring)))
          field_simp [sub_ne_zero.mpr (show (g : ℚ) < b by linarith).ne']
          ring
        · -- blue max, red min: sector D
          have hmn : min (min (r / 255) (g / 255)) (b / 255) = r / 255 := by
            rw [min_eq_left (le_of_lt hyx), min_eq_left (le_of_lt hxz)]
          have hd : r / 255 < b / 255 := hxz
          have hdne : b / 255 - r / 255 ≠ 0 := sub_ne_zero.mpr (ne_of_gt hd)
          have hHSL : rgbToHsl r g b =
              (((r / 255 - g / 255) / (b / 255 - r / 255) + 4) * 60,
               (if (b / 255 + r / 255) / 2 > 1 / 2 then
                 (b / 255 - r / 255) / (2 - b / 255 - r / 255)
                else (b / 255 - r / 255) / (b / 255 + r / 255)),
               (b / 255 + r / 255) / 2) := by
            simp only [rgbToHsl]
            rw [hmn, hcb]
            rw [if_neg (sub_ne_zero.mp (by simpa using sub_ne_zero.mpr (ne_of_gt hd))),
              if_neg (by simpa using ne_of_gt hxz), if_neg (by simpa using ne_of_gt hyz)]
          rw [hHSL]
          show hslToRgb
              (jsMod (((r / 255 - g / 255) / (b / 255 - r / 255) + 4) * 60 + 180) 360)
              _ _ = _
          rw [complement_sector_D (b / 255) (r / 255)
            ((r / 255 - g / 255) / (b / 255 - r / 255) + 4) hx0 hd hz1
            (by
              have : -(1 : ℚ) ≤ (r / 255 - g / 255) / (b / 255 - r / 255) := by
                rw [neg_le, ← neg_div, div_le_one (by linarith)]
                linarith
              linarith)
            (by
              have : (r / 255 - g / 255) / (b / 255 - r / 255) ≤ 0 :=
                div_nonpos_of_nonpos_of_nonneg (by linarith) (by linarith)
              linarith)]
          rw [max_eq_right (show (r : ℚ) ≤ g by linarith),
            max_eq_right (show (g : ℚ) ≤ b by linarith),
            min_eq_left (show (r : ℚ) ≤ g by linarith),
            min_eq_left (show (r : ℚ) ≤ b by linarith)]
          refine congrArg₂ _ (congrArg jsRound (by ring))
            (congrArg₂ _ (congrArg jsRound ?_) (congrArg jsRound (by ring)))
          field_simp [sub_ne_zero.mpr (show (r : ℚ) < b by linarith).ne']
          ring

/-- `getContrastColor` on numeric channels, unfolded. -/
theorem getContrastColor_num (r g b : ℚ) (a : JSNum) :
    getContrastColor (UColor.mk (JSNum.num r) (JSNum.num g) (JSNum.num b) a) =
      UColor.mk
        (JSNum.num ((hslToRgb (jsMod ((rgbToHsl r g b).1 + 180) 360)
          (rgbToHsl r g b).2.1 (rgbToHsl r g b).2.2).1 : ℚ))
        (JSNum.num ((hslToRgb (jsMod ((rgbToHsl r g b).1 + 180) 360)
          (rgbToHsl r g b).2.1 (rgbToHsl r g b).2.2).2.1 : ℚ))
        (JSNum.num ((hslToRgb (jsMod ((rgbToHsl r g b).1 + 180) 360)
          (rgbToHsl r g b).2.1 (rgbToHsl r g b).2.2).2.2 : ℚ))
        a := rfl

/-- `contrast_exact` specialised to integer channels: the rounding is
exact, so one application of the complement is exactly
`max + min - channel` on each channel. -/
theorem contrast_int (r g b : ℤ) (hr0 : 0 ≤ r) (hr1 : r ≤ 255) (hg0 : 0 ≤ g)
    (hg1 : g ≤ 255) (hb0 : 0 ≤ b) (hb1 : b ≤ 255) :
    hslToRgb (jsMod ((rgbToHsl (r : ℚ) (g : ℚ) (b : ℚ)).1 + 180) 360)
        (rgbToHsl (r : ℚ) (g : ℚ) (b : ℚ)).2.1
        (rgbToHsl (r : ℚ) (g : ℚ) (b : ℚ)).2.2 =
      (max (max r g) b + min (min r g) b - r,
       max (max r g) b + min (min r g) b - g,
       max (max r g) b + min (min r g) b - b) := by
  rw [contrast_exact (r : ℚ) (g : ℚ) (b : ℚ) (by exact_mod_cast hr0)
    (by exact_mod_cast hr1) (by exact_mod_cast hg0) (by exact_mod_cast hg1)
    (by exact_mod_cast hb0) (by exact_mod_cast hb1)]
  have er : max (max (r : ℚ) (g : ℚ)) (b : ℚ) + min (min (r : ℚ) (g : ℚ)) (b : ℚ) -
      (r : ℚ) = ((max (max r g) b + min (min r g) b - r : ℤ) : ℚ) := by
    push_cast
    ring
  have eg : max (max (r : ℚ) (g : ℚ)) (b : ℚ) + min (min (r : ℚ) (g : ℚ)) (b : ℚ) -
      (g : ℚ) = ((max (max r g) b + min (min r g) b - g : ℤ) : ℚ) := by
    push_cast
    ring
  have eb : max (max (r : ℚ) (g : ℚ)) (b : ℚ) + min (min (r : ℚ) (g : ℚ)) (b : ℚ) -
      (b : ℚ) = ((max (max r g) b + min (min r g) b - b : ℤ) : ℚ) := by
    push_cast
    ring
  rw [er, eg, eb, jsRound_intCast, jsRound_intCast, jsRound_intCast]

/-- Claim C5: applying `getContrastColor` twice to a color with integer
channels in [0, 255] gives back channels within ±1 of the original (in
fact exactly equal: the complement is `max + min - channel` with no
rounding error) and exactly the original alpha. -/
theorem contrast_involution (r g b : ℤ) (a : ℚ) (hr0 : 0 ≤ r) (hr1 : r ≤ 255)
    (hg0 : 0 ≤ g) (hg1 : g ≤ 255) (hb0 : 0 ≤ b) (hb1 : b ≤ 255) :
    ∃ r2 g2 b2 : ℤ,
      getContrastColor (getContrastColor (UColor.mk (JSNum.num (r : ℚ))
          (JSNum.num (g : ℚ)) (JSNum.num (b : ℚ)) (JSNum.num a))) =
        UColor.mk (JSNum.num (r2 : ℚ)) (JSNum.num (g2 : ℚ)) (JSNum.num (b2 : ℚ))
          (JSNum.num a) ∧
      |r2 - r| ≤ 1 ∧ |g2 - g| ≤ 1 ∧ |b2 - b| ≤ 1 := by
  have hmr : min (min r g) b ≤ r := le_trans (min_le_left _ _) (min_le_left _ _)
  have hmg : min (min r g) b ≤ g := le_trans (min_le_left _ _) (min_le_right _ _)
  have hmb : min (min r g) b ≤ b := min_le_right _ _
  have hMr : r ≤ max (max r g) b := le_trans (le_max_left _ _) (le_max_left _ _)
  have hMg : g ≤ max (max r g) b := le_trans (le_max_right _ _) (le_max_left _ _)
  have hMb : b ≤ max (max r g) b := le_max_right _ _
  have hM0 : 0 ≤ max (max r g) b := le_trans hr0 hMr
  have hM1 : max (max r g) b ≤ 255 := by
    rw [max_le_iff, max_le_iff]
    exact ⟨⟨hr1, hg1⟩, hb1⟩
  have hm0 : 0 ≤ min (min r g) b := by
    rw [le_min_iff, le_min_iff]
    exact ⟨⟨hr0, hg0⟩, hb0⟩
  have hm1 : min (min r g) b ≤ 255 := le_trans hmr hr1
  refine ⟨r, g, b, ?_, by simp, by simp, by simp⟩
  rw [getContrastColor_num, contrast_int r g b hr0 hr1 hg0 hg1 hb0 hb1]
  dsimp only
  rw [getContrastColor_num,
    contrast_int _ _ _ (by omega) (by omega) (by omega) (by omega) (by omega) (by omega)]
  dsimp only
  rw [max_sub_sub_left, max_sub_sub_left, min_sub_sub_left, min_sub_sub_left]
  simp only [UColor.mk.injEq, JSNum.num.injEq, Int.cast_inj, and_true]
  refine ⟨by ring, by ring, by ring⟩

/-- Witness for `contrast_involution` at a concrete color. -/
theorem contrast_involution_witness :
    ∃ r2 g2 b2 : ℤ,
      getContrastColor (getContrastColor (UColor.mk (JSNum.num ((12 : ℤ) : ℚ))
          (JSNum.num ((34 : ℤ) : ℚ)) (JSNum.num ((27 : ℤ) : ℚ)) (JSNum.num 1))) =
        UColor.mk (JSNum.num (r2 : ℚ)) (JSNum.num (g2 : ℚ)) (JSNum.num (b2 : ℚ))
          (JSNum.num 1) ∧
      |r2 - 12| ≤ 1 ∧ |g2 - 34| ≤ 1 ∧ |b2 - 27| ≤ 1 :=
  contrast_involution 12 34 27 1 (by norm_num) (by norm_num) (by norm_num)
    (by norm_num) (by norm_num) (by norm_num)

/-- `getPalette` on numeric channels, unfolded. -/
theorem getPalette_num (r g b : ℚ) (a : JSNum) :
    getPalette (UColor.mk (JSNum.num r) (JSNum.num g) (JSNum.num b) a) =
      [UColor.mk (JSNum.num r) (JSNum.num g) (JSNum.num b) a,
       UColor.mk
         (JSNum.num ((hslToRgb (jsMod ((rgbToHsl r g b).1 + 120) 360)
           (rgbToHsl r g b).2.1 (rgbToHsl r g b).2.2).1 : ℚ))
         (JSNum.num ((hslToRgb (jsMod ((rgbToHsl r g b).1 + 120) 360)
           (rgbToHsl r g b).2.1 (rgbToHsl r g b).2.2).2.1 : ℚ))
         (JSNum.num ((hslToRgb (jsMod ((rgbToHsl r g b).1 + 120) 360)
           (rgbToHsl r g b).2.1 (rgbToHsl r g b).2.2).2.2 : ℚ))
         a,
       UColor.mk
         (JSNum.num ((hslToRgb (jsMod ((rgbToHsl r g b).1 + 240) 360)
           (rgbToHsl r g b).2.1 (rgbToHsl r g b).2.2).1 : ℚ))
         (JSNum.num ((hslToRgb (jsMod ((rgbToHsl r g b).1 + 240) 360)
           (rgbToHsl r g b).2.1 (rgbToHsl r g b).2.2).2.1 : ℚ))
         (JSNum.num ((hslToRgb (jsMod ((rgbToHsl r g b).1 + 240) 360)
           (rgbToHsl r g b).2.1 (rgbToHsl r g b).2.2).2.2 : ℚ))
         a] := rfl

/-- Claim C6: for a color with integer channels in [0, 255], `getPalette`
returns the ordered 3-sequence whose head is the color itself, whose
second and third entries are the HSL→RGB conversions at hue +120° and
+240° (mod 360, JS semantics) with the same saturation and lightness, and
all three entries carry exactly the original alpha. -/
theorem palette_structure (r g b : ℤ) (a : ℚ) (_hr0 : 0 ≤ r) (_hr1 : r ≤ 255)
    (_hg0 : 0 ≤ g) (_hg1 : g ≤ 255) (_hb0 : 0 ≤ b) (_hb1 : b ≤ 255) :
    getPalette (UColor.mk (JSNum.num (r : ℚ)) (JSNum.num (g : ℚ))
        (JSNum.num (b : ℚ)) (JSNum.num a)) =
      [UColor.mk (JSNum.num (r : ℚ)) (JSNum.num (g : ℚ)) (JSNum.num (b : ℚ))
         (JSNum.num a),
       UColor.mk
         (JSNum.num ((hslToRgb (jsMod ((rgbToHsl (r : ℚ) (g : ℚ) (b : ℚ)).1 + 120) 360)
           (rgbToHsl (r : ℚ) (g : ℚ) (b : ℚ)).2.1
           (rgbToHsl (r : ℚ) (g : ℚ) (b : ℚ)).2.2).1 : ℚ))
         (JSNum.num ((hslToRgb (jsMod ((rgbToHsl (r : ℚ) (g : ℚ) (b : ℚ)).1 + 120) 360)
           (rgbToHsl (r : ℚ) (g : ℚ) (b : ℚ)).2.1
           (rgbToHsl (r : ℚ) (g : ℚ) (b : ℚ)).2.2).2.1 : ℚ))
         (JSNum.num ((hslToRgb (jsMod ((rgbToHsl (r : ℚ) (g : ℚ) (b : ℚ)).1 + 120) 360)
           (rgbToHsl (r : ℚ) (g : ℚ) (b : ℚ)).2.1
           (rgbToHsl (r : ℚ) (g : ℚ) (b : ℚ)).2.2).2.2 : ℚ))
         (JSNum.num a),
       UColor.mk
         (JSNum.num ((hslToRgb (jsMod ((rgbToHsl (r : ℚ) (g : ℚ) (b : ℚ)).1 + 240) 360)
           (rgbToHsl (r : ℚ) (g : ℚ) (b : ℚ)).2.1
           (rgbToHsl (r : ℚ) (g : ℚ) (b : ℚ)).2.2).1 : ℚ))
         (JSNum.num ((hslToRgb (jsMod ((rgbToHsl (r : ℚ) (g : ℚ) (b : ℚ)).1 + 240) 360)
           (rgbToHsl (r : ℚ) (g : ℚ) (b : ℚ)).2.1
           (rgbToHsl (r : ℚ) (g : ℚ) (b : ℚ)).2.2).2.1 : ℚ))
         (JSNum.num ((hslToRgb (jsMod ((rgbToHsl (r : ℚ) (g : ℚ) (b : ℚ)).1 + 240) 360)
           (rgbToHsl (r : ℚ) (g : ℚ) (b : ℚ)).2.1
           (rgbToHsl (r : ℚ) (g : ℚ) (b : ℚ)).2.2).2.2 : ℚ))
         (JSNum.num a)] :=
  getPalette_num (r : ℚ) (g : ℚ) (b : ℚ) (JSNum.num a)

/-- Witness for `palette_structure` at a concrete color. -/
theorem palette_structure_witness :
    getPalette (UColor.mk (JSNum.num ((12 : ℤ) : ℚ)) (JSNum.num ((34 : ℤ) : ℚ))
        (JSNum.num ((27 : ℤ) : ℚ)) (JSNum.num 1)) =
      [UColor.mk (JSNum.num ((12 : ℤ) : ℚ)) (JSNum.num ((34 : ℤ) : ℚ))
         (JSNum.num ((27 : ℤ) : ℚ)) (JSNum.num 1),
       UColor.mk
         (JSNum.num ((hslToRgb
           (jsMod ((rgbToHsl ((12 : ℤ) : ℚ) ((34 : ℤ) : ℚ) ((27 : ℤ) : ℚ)).1 + 120) 360)
           (rgbToHsl ((12 : ℤ) : ℚ) ((34 : ℤ) : ℚ) ((27 : ℤ) : ℚ)).2.1
           (rgbToHsl ((12 : ℤ) : ℚ) ((34 : ℤ) : ℚ) ((27 : ℤ) : ℚ)).2.2).1 : ℚ))
         (JSNum.num ((hslToRgb
           (jsMod ((rgbToHsl ((12 : ℤ) : ℚ) ((34 : ℤ) : ℚ) ((27 : ℤ) : ℚ)).1 + 120) 360)
           (rgbToHsl ((12 : ℤ) : ℚ) ((34 : ℤ) : ℚ) ((27 : ℤ) : ℚ)).2.1
           (rgbToHsl ((12 : ℤ) : ℚ) ((34 : ℤ) : ℚ) ((27 : ℤ) : ℚ)).2.2).2.1 : ℚ))
         (JSNum.num ((hslToRgb
           (jsMod ((rgbToHsl ((12 : ℤ) : ℚ) ((34 : ℤ) : ℚ) ((27 : ℤ) : ℚ)).1 + 120) 360)
           (rgbToHsl ((12 : ℤ) : ℚ) ((34 : ℤ) : ℚ) ((27 : ℤ) : ℚ)).2.1
           (rgbToHsl ((12 : ℤ) : ℚ) ((34 : ℤ) : ℚ) ((27 : ℤ) : ℚ)).2.2).2.2 : ℚ))
         (JSNum.num 1),
       UColor.mk
         (JSNum.num ((hslToRgb
           (jsMod ((rgbToHsl ((12 : ℤ) : ℚ) ((34 : ℤ) : ℚ) ((27 : ℤ) : ℚ)).1 + 240) 360)
           (rgbToHsl ((12 : ℤ) : ℚ) ((34 : ℤ) : ℚ) ((27 : ℤ) : ℚ)).2.1
           (rgbToHsl ((12 : ℤ) : ℚ) ((34 : ℤ) : ℚ) ((27 : ℤ) : ℚ)).2.2).1 : ℚ))
         (JSNum.num ((hslToRgb
           (jsMod ((rgbToHsl ((12 : ℤ) : ℚ) ((34 : ℤ) : ℚ) ((27 : ℤ) : ℚ)).1 + 240) 360)
           (rgbToHsl ((12 : ℤ) : ℚ) ((34 : ℤ) : ℚ) ((27 : ℤ) : ℚ)).2.1
           (rgbToHsl ((12 : ℤ) : ℚ) ((34 : ℤ) : ℚ) ((27 : ℤ) : ℚ)).2.2).2.1 : ℚ))
         (JSNum.num ((hslToRgb
           (jsMod ((rgbToHsl ((12 : ℤ) : ℚ) ((34 : ℤ) : ℚ) ((27 : ℤ) : ℚ)).1 + 240) 360)
           (rgbToHsl ((12 : ℤ) : ℚ) ((34 : ℤ) : ℚ) ((27 : ℤ) : ℚ)).2.1
           (rgbToHsl ((12 : ℤ) : ℚ) ((34 : ℤ) : ℚ) ((27 : ℤ) : ℚ)).2.2).2.2 : ℚ))
         (JSNum.num 1)] :=
  palette_structure 12 34 27 1 (by norm_num) (by norm_num) (by norm_num)
    (by norm_num) (by norm_num) (by norm_num)

/-! ### toRGBA and the decimal printing of JS numbers (claim C10) -/

/-- Multiplicity of a prime factor, used only to pick the number of
decimal places to print. -/
def mult (p n : ℕ) : ℕ :=
  if h : 2 ≤ p ∧ n ≠ 0 ∧ p ∣ n then mult p (n / p) + 1 else 0
termination_by n
decreasing_by
  exact Nat.div_lt_self (Nat.pos_of_ne_zero h.2.1) h.1

/-- The number of decimal places `qToChars` prints for denominator `d`. -/
def decExp (d : ℕ) : ℕ :=
  max (mult 2 d) (mult 5 d)

/-- A rational has a finite decimal expansion at the chosen precision.
Every JS double satisfies this (its denominator is a power of two). -/
def DecimalRep (q : ℚ) : Prop :=
  q.den ∣ 10 ^ decExp q.den

instance (q : ℚ) : Decidable (DecimalRep q) := by
  unfold DecimalRep
  infer_instance

/-- Decimal digit string of a natural number (`"0"` for zero). -/
def natToChars (n : ℕ) : List Char :=
  if n = 0 then ['0'] else ((Nat.digits 10 n).reverse).map Nat.digitChar

/-- `natToChars` left-padded with zeros to `k` characters. -/
def padZeros (k v : ℕ) : List Char :=
  List.replicate (k - (natToChars v).length) '0' ++ natToChars v

/-- The decimal string of a rational: sign, integer digits, and — when the
chosen precision `decExp q.den` is positive — a point and that many
fraction digits.  On `DecimalRep` rationals (all that ever arise from JS
doubles) this is the exact value with no trailing zeros, matching the JS
number-to-string conversion. -/
def qToChars (q : ℚ) : List Char :=
  (if q < 0 then ['-'] else []) ++
    (if decExp q.den = 0 then natToChars (q.num.natAbs * (10 ^ decExp q.den / q.den))
     else
       natToChars (q.num.natAbs * (10 ^ decExp q.den / q.den) / 10 ^ decExp q.den) ++
         '.' :: padZeros (decExp q.den)
           (q.num.natAbs * (10 ^ decExp q.den / q.den) % 10 ^ decExp q.den))

/-- A JS number interpolated into a template string (`NaN` prints as
`NaN`). -/
def numToString : JSNum → List Char
  | JSNum.nan => ['N', 'a', 'N']
  | JSNum.num q => qToChars q

/-- `UColor.toRGBA`: the literal template
`rgba(${this.r}, ${this.g}, ${this.b}, ${this.a})`. -/
def toRGBA (c : UColor) : List Char :=
  ("rgba(").data ++ numToString c.r ++ (", ").data ++ numToString c.g ++
    (", ").data ++ numToString c.b ++ (", ").data ++ numToString c.a ++ (")").data

theorem digitsVal_append_digit (xs : List Char) (c : Char) :
    digitsVal (xs ++ [c]) = digitsVal xs * 10 + (c.toNat - 48) := by
  simp [digitsVal]

theorem digitChar_val : ∀ d : ℕ, d < 10 → ((Nat.digitChar d).toNat - 48) = d := by
  decide

theorem digitChar_isDigit : ∀ d : ℕ, d < 10 → (Nat.digitChar d).isDigit = true := by
  decide

theorem digitsVal_digits (ds : List ℕ) (h : ∀ d ∈ ds, d < 10) :
    digitsVal ((ds.reverse).map Nat.digitChar) = Nat.ofDigits 10 ds := by
  induction ds with
  | nil => simp [digitsVal, Nat.ofDigits]
  | cons d tail ih =>
    rw [List.reverse_cons, List.map_append]
    simp only [List.map_cons, List.map_nil]
    rw [digitsVal_append_digit, ih (fun x hx => h x (by simp [hx])),
      digitChar_val d (h d (by simp)), Nat.ofDigits_cons]
    ring

theorem digitsVal_natToChars (n : ℕ) : digitsVal (natToChars n) = n := by
  rw [natToChars]
  by_cases h : n = 0
  · subst h
    decide
  · rw [if_neg h, digitsVal_digits _ (fun d hd => Nat.digits_lt_base (by norm_num) hd),
      Nat.ofDigits_digits]

theorem natToChars_all_digits (n : ℕ) : ∀ c ∈ natToChars n, c.isDigit = true := by
  rw [natToChars]
  by_cases h : n = 0
  · subst h
    decide
  · rw [if_neg h]
    intro c hc
    obtain ⟨d, hd, rfl⟩ := List.mem_map.mp hc
    exact digitChar_isDigit d
      (Nat.digits_lt_base (by norm_num) (List.mem_reverse.mp hd))

theorem natToChars_ne_nil (n : ℕ) : natToChars n ≠ [] := by
  rw [natToChars]
  by_cases h : n = 0
  · subst h
    decide
  · rw [if_neg h]
    simp [Nat.digits_ne_nil_iff_ne_zero.mpr h]

theorem digitsVal_replicate_zero (j : ℕ) (cs : List Char) :
    digitsVal (List.replicate j '0' ++ cs) = digitsVal cs := by
  induction j with
  | zero => simp
  | succ k ih =>
    rw [List.replicate_succ, List.cons_append]
    show digitsVal (List.replicate k '0' ++ cs) = _
    exact ih

theorem digitsVal_padZeros (k v : ℕ) : digitsVal (padZeros k v) = v := by
  rw [padZeros, digitsVal_replicate_zero, digitsVal_natToChars]

theorem padZeros_all_digits (k v : ℕ) : ∀ c ∈ padZeros k v, c.isDigit = true := by
  intro c hc
  rcases List.mem_append.mp hc with h | h
  · rw [List.eq_of_mem_replicate h]
    decide
  · exact natToChars_all_digits v c h

theorem digits_length_le_of_lt_pow (v k : ℕ) (h : v < 10 ^ k) :
    (Nat.digits 10 v).length ≤ k := by
  rcases Nat.eq_zero_or_pos v with rfl | hv
  · simp
  · by_contra hlen
    push_neg at hlen
    have h1 := Nat.base_pow_length_digits_le 10 v (by norm_num)
      (Nat.pos_iff_ne_zero.mp hv)
    have h2 : 10 ^ (k + 1) ≤ 10 ^ (Nat.digits 10 v).length :=
      Nat.pow_le_pow_right (by norm_num) hlen
    have h3 : 10 ^ (k + 1) ≤ 10 * v := le_trans h2 h1
    rw [pow_succ] at h3
    have : 10 ^ k ≤ v := by
      have := Nat.le_of_mul_le_mul_right (by linarith) (by norm_num : 0 < 10)
      omega
    omega

theorem natToChars_length_le (v k : ℕ) (h : v < 10 ^ k) (hk : 0 < k) :
    (natToChars v).length ≤ k := by
  rw [natToChars]
  by_cases hv : v = 0
  · subst hv
    simpa using hk
  · rw [if_neg hv]
    simpa using digits_length_le_of_lt_pow v k h

theorem padZeros_length (k v : ℕ) (h : v < 10 ^ k) (hk : 0 < k) :
    (padZeros k v).length = k := by
  rw [padZeros]
  have := natToChars_length_le v k h hk
  simp only [List.length_append, List.length_replicate]
  omega

theorem dropWhile_eq_self_of_no_space (s : List Char)
    (h : ∀ c ∈ s, isSpaceJS c = false) : s.dropWhile isSpaceJS = s := by
  cases s with
  | nil => rfl
  | cons c cs => simp [List.dropWhile_cons, h c (List.mem_cons_self c cs)]

theorem jsTrim_eq_self_of_no_space (s : List Char)
    (h : ∀ c ∈ s, isSpaceJS c = false) : jsTrim s = s := by
  rw [jsTrim, dropWhile_eq_self_of_no_space s h,
    dropWhile_eq_self_of_no_space s.reverse
      (fun c hc => h c (List.mem_reverse.mp hc)),
    List.reverse_reverse]

theorem isDigit_not_space (c : Char) (h : c.isDigit = true) :
    isSpaceJS c = false := by
  rw [isSpaceJS]
  simp only [Bool.or_eq_false_iff, beq_eq_false_iff_ne]
  refine ⟨⟨⟨?_, ?_⟩, ?_⟩, ?_⟩ <;> (rintro rfl; revert h; decide)

theorem isDigit_props (c : Char) (h : c.isDigit = true) :
    c ≠ '-' ∧ c ≠ '+' ∧ c ≠ '.' ∧ c ≠ ',' := by
  refine ⟨?_, ?_, ?_, ?_⟩ <;> (rintro rfl; revert h; decide)

theorem jsSplit_of_not_mem (sep : Char) (x : List Char) (hx : sep ∉ x) :
    jsSplit sep x = [x] := by
  induction x with
  | nil => rfl
  | cons c cs ih =>
    have hc : (c == sep) = false :=
      beq_eq_false_iff_ne.mpr (fun he => hx (he ▸ List.mem_cons_self c cs))
    have ih2 := ih (fun hmem => hx (List.mem_cons_of_mem c hmem))
    simp [jsSplit, hc, ih2]

theorem jsSplit_append_sep (sep : Char) (x rest : List Char) (hx : sep ∉ x) :
    jsSplit sep (x ++ sep :: rest) = x :: jsSplit sep rest := by
  induction x with
  | nil => simp [jsSplit]
  | cons c cs ih =>
    have hc : (c == sep) = false :=
      beq_eq_false_iff_ne.mpr (fun he => hx (he ▸ List.mem_cons_self c cs))
    have ih2 := ih (fun hmem => hx (List.mem_cons_of_mem c hmem))
    rw [List.cons_append]
    simp only [jsSplit, hc, Bool.false_eq_true, if_false, ih2]

theorem qToChars_chars (q : ℚ) :
    ∀ c ∈ qToChars q, c.isDigit = true ∨ c = '-' ∨ c = '.' := by
  intro c hc
  rw [qToChars] at hc
  rcases List.mem_append.mp hc with h | h
  · split_ifs at h
    · right
      left
      simpa using h
    · simp at h
  · split_ifs at h
    · exact Or.inl (natToChars_all_digits _ c h)
    · rcases List.mem_append.mp h with h2 | h2
      · exact Or.inl (natToChars_all_digits _ c h2)
      · rcases List.mem_cons.mp h2 with h3 | h3
        · exact Or.inr (Or.inr h3)
        · exact Or.inl (padZeros_all_digits _ _ c h3)

theorem qToChars_no_space (q : ℚ) : ∀ c ∈ qToChars q, isSpaceJS c = false := by
  intro c hc
  rcases qToChars_chars q c hc with h | h | h
  · exact isDigit_not_space c h
  · rw [h]
    decide
  · rw [h]
    decide

theorem qToChars_no_comma (q : ℚ) : ',' ∉ qToChars q := by
  intro hc
  rcases qToChars_chars q ',' hc with h | h | h
  · exact absurd h (by decide)
  · exact absurd h (by decide)
  · exact absurd h (by decide)

theorem qToChars_ne_nil (q : ℚ) : qToChars q ≠ [] := by
  rw [qToChars]
  intro h
  rw [List.append_eq_nil] at h
  have := h.2
  split_ifs at this with hk
  · exact natToChars_ne_nil _ this
  · rw [List.append_eq_nil] at this
    exact absurd this.2 (by simp)

theorem dot_not_mem_natToChars (m : ℕ) : '.' ∉ natToChars m :=
  fun hmem => absurd (natToChars_all_digits m _ hmem) (by decide)

theorem dot_not_mem_padZeros (k v : ℕ) : '.' ∉ padZeros k v :=
  fun hmem => absurd (padZeros_all_digits k v _ hmem) (by decide)

theorem jsParse_int (neg : Bool) (m : ℕ) :
    jsParse ((if neg then ['-'] else []) ++ natToChars m) = some (neg, m, 0, 0) := by
  have hdig := natToChars_all_digits m
  have hnn := natToChars_ne_nil m
  obtain ⟨c0, cs0, hc0⟩ := List.exists_cons_of_ne_nil hnn
  have hc0d : c0.isDigit = true := hdig c0 (by rw [hc0]; exact List.mem_cons_self _ _)
  obtain ⟨hcm, hcp, _, _⟩ := isDigit_props c0 hc0d
  have hsplit : jsSplit '.' (natToChars m) = [natToChars m] :=
    jsSplit_of_not_mem '.' _ (dot_not_mem_natToChars m)
  have hcond : (!(natToChars m).isEmpty && (natToChars m).all Char.isDigit) = true := by
    rw [Bool.and_eq_true]
    refine ⟨by simpa using hnn, ?_⟩
    rw [List.all_eq_true]
    exact hdig
  cases neg with
  | true =>
    have hshape : (if true then ['-'] else []) ++ natToChars m = '-' :: natToChars m := rfl
    rw [hshape]
    have htrim : jsTrim ('-' :: natToChars m) = '-' :: natToChars m := by
      refine jsTrim_eq_self_of_no_space _ ?_
      intro c hc
      rcases List.mem_cons.mp hc with rfl | h
      · decide
      · exact isDigit_not_space c (hdig c h)
    simp only [jsParse, htrim]
    rw [if_neg (by simp : ¬('-' :: natToChars m).isEmpty = true)]
    rw [if_pos (by simp : ('-' :: natToChars m).head? = some ('-'))]
    simp only [List.tail_cons, hsplit, hcond, if_pos, digitsVal_natToChars]
  | false =>
    have hshape : (if false then ['-'] else []) ++ natToChars m = natToChars m := by simp
    rw [hshape]
    have htrim : jsTrim (natToChars m) = natToChars m :=
      jsTrim_eq_self_of_no_space _ (fun c hc => isDigit_not_space c (hdig c hc))
    simp only [jsParse, htrim]
    rw [if_neg (by simpa using hnn : ¬(natToChars m).isEmpty = true)]
    rw [if_neg (by rw [hc0]; simp; intro he; exact hcm he :
        ¬(natToChars m).head? = some ('-'))]
    rw [if_neg (by rw [hc0]; simp; intro he; exact hcp he :
        ¬(natToChars m).head? = some ('+'))]
    simp only [hsplit, hcond, if_pos, digitsVal_natToChars]

theorem jsParse_dec (neg : Bool) (i f k : ℕ) (hk : k ≠ 0) (hf : f < 10 ^ k) :
    jsParse ((if neg then ['-'] else []) ++ (natToChars i ++ '.' :: padZeros k f)) =
      some (neg, i, f, k) := by
  have hdig := natToChars_all_digits i
  have hnn := natToChars_ne_nil i
  obtain ⟨c0, cs0, hc0⟩ := List.exists_cons_of_ne_nil hnn
  have hc0d : c0.isDigit = true := hdig c0 (by rw [hc0]; exact List.mem_cons_self _ _)
  obtain ⟨hcm, hcp, _, _⟩ := isDigit_props c0 hc0d
  have hBnospace : ∀ c ∈ natToChars i ++ '.' :: padZeros k f, isSpaceJS c = false := by
    intro c hc
    rcases List.mem_append.mp hc with h | h
    · exact isDigit_not_space c (hdig c h)
    · rcases List.mem_cons.mp h with rfl | h2
      · decide
      · exact isDigit_not_space c (padZeros_all_digits k f c h2)
  have hBne : natToChars i ++ '.' :: padZeros k f ≠ [] := by
    intro h
    rw [List.append_eq_nil] at h
    exact hnn h.1
  have hBhead : (natToChars i ++ '.' :: padZeros k f).head? = some c0 := by
    rw [hc0, List.cons_append]
    rfl
  have hsplit : jsSplit '.' (natToChars i ++ '.' :: padZeros k f) =
      [natToChars i, padZeros k f] := by
    rw [jsSplit_append_sep '.' _ _ (dot_not_mem_natToChars i),
      jsSplit_of_not_mem '.' _ (dot_not_mem_padZeros k f)]
  have hcond : (!((natToChars i).isEmpty && (padZeros k f).isEmpty) &&
      (natToChars i).all Char.isDigit && (padZeros k f).all Char.isDigit) = true := by
    rw [Bool.and_eq_true, Bool.and_eq_true]
    refine ⟨⟨?_, ?_⟩, ?_⟩
    · have : (natToChars i).isEmpty = false := by
        rw [List.isEmpty_eq_false_iff_exists_mem]
        exact ⟨c0, by rw [hc0]; exact List.mem_cons_self _ _⟩
      rw [this]
      simp
    · rw [List.all_eq_true]
      exact hdig
    · rw [List.all_eq_true]
      exact padZeros_all_digits k f
  have hlen : (padZeros k f).length = k := padZeros_length k f hf (Nat.pos_of_ne_zero hk)
  cases neg with
  | true =>
    have hshape : (if true then ['-'] else []) ++ (natToChars i ++ '.' :: padZeros k f) =
        '-' :: (natToChars i ++ '.' :: padZeros k f) := rfl
    rw [hshape]
    have htrim : jsTrim ('-' :: (natToChars i ++ '.' :: padZeros k f)) =
        '-' :: (natToChars i ++ '.' :: padZeros k f) := by
      refine jsTrim_eq_self_of_no_space _ ?_
      intro c hc
      rcases List.mem_cons.mp hc with rfl | h
      · decide
      · exact hBnospace c h
    simp only [jsParse, htrim]
    rw [if_neg (by simp : ¬('-' :: (natToChars i ++ '.' :: padZeros k f)).isEmpty = true)]
    rw [if_pos (by simp : ('-' :: (natToChars i ++ '.' :: padZeros k f)).head? =
      some ('-'))]
    simp only [List.tail_cons, hsplit, hcond, if_pos, digitsVal_natToChars,
      digitsVal_padZeros, hlen]
  | false =>
    have hshape : (if false then ['-'] else []) ++ (natToChars i ++ '.' :: padZeros k f) =
        natToChars i ++ '.' :: padZeros k f := by simp
    rw [hshape]
    have htrim := jsTrim_eq_self_of_no_space _ hBnospace
    simp only [jsParse, htrim]
    rw [if_neg (by simpa using hBne :
      ¬(natToChars i ++ '.' :: padZeros k f).isEmpty = true)]
    rw [if_neg (by rw [hBhead]; simp; intro he; exact hcm he :
        ¬(natToChars i ++ '.' :: padZeros k f).head? = some ('-'))]
    rw [if_neg (by rw [hBhead]; simp; intro he; exact hcp he :
        ¬(natToChars i ++ '.' :: padZeros k f).head? = some ('+'))]
    simp only [hsplit, hcond, if_pos, digitsVal_natToChars, digitsVal_padZeros, hlen]

theorem qToChars_roundtrip (q : ℚ) (hq : DecimalRep q) :
    jsNumberOfChars (qToChars q) = JSNum.num q := by
  have hden0 : q.den ≠ 0 := q.den_nz
  have hdenQ : (q.den : ℚ) ≠ 0 := Nat.cast_ne_zero.mpr hden0
  have hnum : (q.num : ℚ) = q * (q.den : ℚ) := (div_eq_iff hdenQ).mp (Rat.num_div_den q)
  have habs : ((q.num.natAbs : ℕ) : ℚ) = |q| * (q.den : ℚ) := by
    rw [Int.cast_natAbs, Int.cast_abs, hnum, abs_mul,
      abs_of_pos (by exact_mod_cast q.pos : (0 : ℚ) < (q.den : ℚ))]
  simp only [jsNumberOfChars]
  by_cases hk : decExp q.den = 0
  · have hd1 : q.den = 1 := by
      have hq2 := hq
      rw [DecimalRep, hk, pow_zero] at hq2
      exact Nat.dvd_one.mp hq2
    have hm : q.num.natAbs * (10 ^ decExp q.den / q.den) = q.num.natAbs := by
      rw [hk, hd1]
      norm_num
    have hshape : qToChars q =
        (if q < 0 then ['-'] else []) ++ natToChars q.num.natAbs := by
      rw [qToChars, if_pos hk, hm]
    have habs1 : ((q.num.natAbs : ℕ) : ℚ) = |q| := by
      rw [habs, hd1]
      norm_num
    by_cases hneg : q < 0
    · have hp : jsParse (['-'] ++ natToChars q.num.natAbs) =
          some (true, q.num.natAbs, 0, 0) := jsParse_int true q.num.natAbs
      rw [hshape, if_pos hneg, hp]
      show JSNum.num (valOfParts (true, q.num.natAbs, 0, 0)) = JSNum.num q
      have hv : valOfParts (true, q.num.natAbs, 0, 0) =
          -(((q.num.natAbs : ℕ) : ℚ)) := by
        rw [valOfParts]
        norm_num
      rw [hv, habs1, abs_of_neg hneg, neg_neg]
    · have hp : jsParse ([] ++ natToChars q.num.natAbs) =
          some (false, q.num.natAbs, 0, 0) := jsParse_int false q.num.natAbs
      rw [hshape, if_neg hneg, hp]
      show JSNum.num (valOfParts (false, q.num.natAbs, 0, 0)) = JSNum.num q
      have hv : valOfParts (false, q.num.natAbs, 0, 0) =
          ((q.num.natAbs : ℕ) : ℚ) := by
        rw [valOfParts]
        norm_num
      rw [hv, habs1, abs_of_nonneg (not_lt.mp hneg)]
  · have h10 : ((10 : ℚ)) ^ decExp q.den ≠ 0 := by positivity
    have hm10 : (0 : ℕ) < 10 ^ decExp q.den := by positivity
    have hf : q.num.natAbs * (10 ^ decExp q.den / q.den) % 10 ^ decExp q.den <
        10 ^ decExp q.den := Nat.mod_lt _ hm10
    have hshape : qToChars q =
        (if q < 0 then ['-'] else []) ++
          (natToChars (q.num.natAbs * (10 ^ decExp q.den / q.den) / 10 ^ decExp q.den) ++
            '.' :: padZeros (decExp q.den)
              (q.num.natAbs * (10 ^ decExp q.den / q.den) % 10 ^ decExp q.den)) := by
      rw [qToChars, if_neg hk]
    have hMq : ((q.num.natAbs * (10 ^ decExp q.den / q.den) : ℕ) : ℚ) =
        |q| * 10 ^ decExp q.den := by
      rw [Nat.cast_mul, Nat.cast_div hq hdenQ, habs]
      push_cast
      field_simp
      ring
    have hsum : ((q.num.natAbs * (10 ^ decExp q.den / q.den) / 10 ^ decExp q.den : ℕ) : ℚ) +
        ((q.num.natAbs * (10 ^ decExp q.den / q.den) % 10 ^ decExp q.den : ℕ) : ℚ) /
          10 ^ decExp q.den = |q| := by
      have hdm : ((10 ^ decExp q.den : ℕ) : ℚ) *
          ((q.num.natAbs * (10 ^ decExp q.den / q.den) / 10 ^ decExp q.den : ℕ) : ℚ) +
          ((q.num.natAbs * (10 ^ decExp q.den / q.den) % 10 ^ decExp q.den : ℕ) : ℚ) =
          ((q.num.natAbs * (10 ^ decExp q.den / q.den) : ℕ) : ℚ) := by
        exact_mod_cast Nat.div_add_mod (q.num.natAbs * (10 ^ decExp q.den / q.den))
          (10 ^ decExp q.den)
      rw [hMq] at hdm
      push_cast at hdm ⊢
      field_simp
      linarith [hdm]
    by_cases hneg : q < 0
    · have hp := jsParse_dec true
        (q.num.natAbs * (10 ^ decExp q.den / q.den) / 10 ^ decExp q.den)
        (q.num.natAbs * (10 ^ decExp q.den / q.den) % 10 ^ decExp q.den)
        (decExp q.den) hk hf
      have hp2 : jsParse (['-'] ++
          (natToChars (q.num.natAbs * (10 ^ decExp q.den / q.den) / 10 ^ decExp q.den) ++
            '.' :: padZeros (decExp q.den)
              (q.num.natAbs * (10 ^ decExp q.den / q.den) % 10 ^ decExp q.den))) =
          some (true,
            q.num.natAbs * (10 ^ decExp q.den / q.den) / 10 ^ decExp q.den,
            q.num.natAbs * (10 ^ decExp q.den / q.den) % 10 ^ decExp q.den,
            decExp q.den) := hp
      rw [hshape, if_pos hneg, hp2]
      show JSNum.num (valOfParts (true,
        q.num.natAbs * (10 ^ decExp q.den / q.den) / 10 ^ decExp q.den,
        q.num.natAbs * (10 ^ decExp q.den / q.den) % 10 ^ decExp q.den,
        decExp q.den)) = JSNum.num q
      have hv : valOfParts (true,
          q.num.natAbs * (10 ^ decExp q.den / q.den) / 10 ^ decExp q.den,
          q.num.natAbs * (10 ^ decExp q.den / q.den) % 10 ^ decExp q.den,
          decExp q.den) =
          -(((q.num.natAbs * (10 ^ decExp q.den / q.den) / 10 ^ decExp q.den : ℕ) : ℚ) +
            ((q.num.natAbs * (10 ^ decExp q.den / q.den) % 10 ^ decExp q.den : ℕ) : ℚ) /
              10 ^ decExp q.den) := by
        rw [valOfParts]
        norm_num
      rw [hv, hsum, abs_of_neg hneg, neg_neg]
    · have hp := jsParse_dec false
        (q.num.natAbs * (10 ^ decExp q.den / q.den) / 10 ^ decExp q.den)
        (q.num.natAbs * (10 ^ decExp q.den / q.den) % 10 ^ decExp q.den)
        (decExp q.den) hk hf
      have hp2 : jsParse ([] ++
          (natToChars (q.num.natAbs * (10 ^ decExp q.den / q.den) / 10 ^ decExp q.den) ++
            '.' :: padZeros (decExp q.den)
              (q.num.natAbs * (10 ^ decExp q.den / q.den) % 10 ^ decExp q.den))) =
          some (false,
            q.num.natAbs * (10 ^ decExp q.den / q.den) / 10 ^ decExp q.den,
            q.num.natAbs * (10 ^ decExp q.den / q.den) % 10 ^ decExp q.den,
            decExp q.den) := hp
      rw [hshape, if_neg hneg, hp2]
      show JSNum.num (valOfParts (false,
        q.num.natAbs * (10 ^ decExp q.den / q.den) / 10 ^ decExp q.den,
        q.num.natAbs * (10 ^ decExp q.den / q.den) % 10 ^ decExp q.den,
        decExp q.den)) = JSNum.num q
      have hv : valOfParts (false,
          q.num.natAbs * (10 ^ decExp q.den / q.den) / 10 ^ decExp q.den,
          q.num.natAbs * (10 ^ decExp q.den / q.den) % 10 ^ decExp q.den,
          decExp q.den) =
          ((q.num.natAbs * (10 ^ decExp q.den / q.den) / 10 ^ decExp q.den : ℕ) : ℚ) +
            ((q.num.natAbs * (10 ^ decExp q.den / q.den) % 10 ^ decExp q.den : ℕ) : ℚ) /
              10 ^ decExp q.den := by
        rw [valOfParts]
        norm_num
      rw [hv, hsum, abs_of_nonneg (not_lt.mp hneg)]

theorem toRGBA_shape (A B C D : List Char) :
    ("rgba(").data ++ A ++ (", ").data ++ B ++ (", ").data ++ C ++ (", ").data ++
        D ++ (")").data =
      'r' :: 'g' :: 'b' :: 'a' :: '(' ::
        ((A ++ ',' :: ' ' :: (B ++ ',' :: ' ' :: (C ++ ',' :: ' ' :: D))) ++ [')']) := by
  have h1 : ("rgba(").data = ['r', 'g', 'b', 'a', '('] := rfl
  have h2 : ((", ").data : List Char) = [',', ' '] := rfl
  have h3 : ((")").data : List Char) = [')'] := rfl
  rw [h1, h2, h3]
  simp [List.append_assoc]

theorem jsTrim_rgba_shape (inner : List Char) :
    jsTrim ('r' :: 'g' :: 'b' :: 'a' :: '(' :: (inner ++ [')'])) =
      'r' :: 'g' :: 'b' :: 'a' :: '(' :: (inner ++ [')']) := by
  have h1 : ('r' :: 'g' :: 'b' :: 'a' :: '(' :: (inner ++ [')'])).dropWhile isSpaceJS =
      'r' :: 'g' :: 'b' :: 'a' :: '(' :: (inner ++ [')']) := by
    rw [List.dropWhile_cons, show isSpaceJS ('r') = false from by decide]
    simp
  have h2 : ('r' :: 'g' :: 'b' :: 'a' :: '(' :: (inner ++ [')'])).reverse =
      ')' :: (inner.reverse ++ ['(', 'a', 'b', 'g', 'r']) := by
    simp
  have h3 : (')' :: (inner.reverse ++ ['(', 'a', 'b', 'g', 'r'])).dropWhile isSpaceJS =
      ')' :: (inner.reverse ++ ['(', 'a', 'b', 'g', 'r']) := by
    rw [List.dropWhile_cons, show isSpaceJS (')') = false from by decide]
    simp
  rw [jsTrim, h1, h2, h3, ← h2, List.reverse_reverse]

theorem jsIndexOf_rgba (rest : List Char) :
    jsIndexOf '(' ('r' :: 'g' :: 'b' :: 'a' :: '(' :: rest) = 4 := by
  rw [jsIndexOf, if_pos (by simp)]
  norm_num [List.indexOf, List.findIdx_cons]
  decide

theorem jsSlice_rgba (inner : List Char) :
    jsSlice ('r' :: 'g' :: 'b' :: 'a' :: '(' :: (inner ++ [')'])) 5 (-1) = inner := by
  rw [jsSlice]
  have hlen : ((('r' :: 'g' :: 'b' :: 'a' :: '(' :: (inner ++ [')'])).length : ℕ) : ℤ) =
      (inner.length : ℤ) + 6 := by
    simp
    ring
  rw [hlen]
  have hstop : sliceIdx ((inner.length : ℤ) + 6) (-1) = inner.length + 5 := by
    rw [sliceIdx, if_pos (by norm_num)]
    omega
  have hstart : sliceIdx ((inner.length : ℤ) + 6) 5 = 5 := by
    rw [sliceIdx, if_neg (by norm_num)]
    omega
  rw [hstop, hstart, List.drop_take,
    show inner.length + 5 - 5 = inner.length from by omega,
    show ('r' :: 'g' :: 'b' :: 'a' :: '(' :: (inner ++ [')'])).drop 5 =
      inner ++ [')'] from rfl,
    List.take_left]

theorem numToString_no_comma (x : JSNum) : ',' ∉ numToString x := by
  cases x with
  | nan => decide
  | num q => exact qToChars_no_comma q

theorem fromRGBAparts_toRGBA (c : UColor) :
    fromRGBAparts (toRGBA c) =
      [numToString c.r, ' ' :: numToString c.g, ' ' :: numToString c.b,
        ' ' :: numToString c.a] := by
  have hshape : toRGBA c =
      'r' :: 'g' :: 'b' :: 'a' :: '(' ::
        ((numToString c.r ++ ',' :: ' ' :: (numToString c.g ++ ',' :: ' ' ::
          (numToString c.b ++ ',' :: ' ' :: numToString c.a))) ++ [')']) := by
    rw [toRGBA]
    exact toRGBA_shape _ _ _ _
  rw [fromRGBAparts, hshape, jsTrim_rgba_shape, jsIndexOf_rgba]
  rw [show (4 : ℤ) + 1 = 5 from by norm_num, jsSlice_rgba]
  rw [jsSplit_append_sep ',' _ _ (numToString_no_comma c.r)]
  rw [show (' ' :: (numToString c.g ++ ',' :: ' ' ::
    (numToString c.b ++ ',' :: ' ' :: numToString c.a))) =
    (' ' :: numToString c.g) ++ ',' :: (' ' ::
      (numToString c.b ++ ',' :: ' ' :: numToString c.a)) from by simp]
  rw [jsSplit_append_sep ',' _ _ (by
    intro h
    rcases List.mem_cons.mp h with h1 | h1
    · exact absurd h1 (by decide)
    · exact numToString_no_comma c.g h1)]
  rw [show (' ' :: (numToString c.b ++ ',' :: ' ' :: numToString c.a)) =
    (' ' :: numToString c.b) ++ ',' :: (' ' :: numToString c.a) from by simp]
  rw [jsSplit_append_sep ',' _ _ (by
    intro h
    rcases List.mem_cons.mp h with h1 | h1
    · exact absurd h1 (by decide)
    · exact numToString_no_comma c.b h1)]
  rw [jsSplit_of_not_mem ',' _ (by
    intro h
    rcases List.mem_cons.mp h with h1 | h1
    · exact absurd h1 (by decide)
    · exact numToString_no_comma c.a h1)]

theorem jsParse_cons_space (s : List Char) : jsParse (' ' :: s) = jsParse s := by
  have htrim : jsTrim (' ' :: s) = jsTrim s := by
    rw [jsTrim, jsTrim, List.dropWhile_cons,
      show isSpaceJS (' ') = true from by decide]
    simp
  simp only [jsParse, htrim]

theorem jsNumberOfChars_cons_space (s : List Char) :
    jsNumberOfChars (' ' :: s) = jsNumberOfChars s := by
  rw [jsNumberOfChars, jsNumberOfChars, jsParse_cons_space]

/-- Claim C10: for channels that are exactly representable decimals (as
every JS double is), `fromRGBA ∘ toRGBA` is the identity when `a ≠ 0`;
when `a = 0` the falsy-alpha rule replaces the alpha by 1 and the RGB
channels still round-trip. -/
theorem rgba_roundtrip (r g b a : ℚ) (hr : DecimalRep r) (hg : DecimalRep g)
    (hb : DecimalRep b) (ha : DecimalRep a) :
    (a ≠ 0 → fromRGBA (toRGBA (UColor.mk (JSNum.num r) (JSNum.num g) (JSNum.num b)
        (JSNum.num a))) =
      UColor.mk (JSNum.num r) (JSNum.num g) (JSNum.num b) (JSNum.num a)) ∧
    (a = 0 → fromRGBA (toRGBA (UColor.mk (JSNum.num r) (JSNum.num g) (JSNum.num b)
        (JSNum.num a))) =
      UColor.mk (JSNum.num r) (JSNum.num g) (JSNum.num b) (JSNum.num 1)) := by
  have hparts := fromRGBAparts_toRGBA
    (UColor.mk (JSNum.num r) (JSNum.num g) (JSNum.num b) (JSNum.num a))
  have hR : jsToNumber ((fromRGBAparts (toRGBA (UColor.mk (JSNum.num r) (JSNum.num g)
      (JSNum.num b) (JSNum.num a)))).get? 0) = JSNum.num r := by
    rw [hparts]
    show jsNumberOfChars (numToString (JSNum.num r)) = JSNum.num r
    exact qToChars_roundtrip r hr
  have hG : jsToNumber ((fromRGBAparts (toRGBA (UColor.mk (JSNum.num r) (JSNum.num g)
      (JSNum.num b) (JSNum.num a)))).get? 1) = JSNum.num g := by
    rw [hparts]
    show jsNumberOfChars (' ' :: numToString (JSNum.num g)) = JSNum.num g
    rw [jsNumberOfChars_cons_space]
    exact qToChars_roundtrip g hg
  have hB : jsToNumber ((fromRGBAparts (toRGBA (UColor.mk (JSNum.num r) (JSNum.num g)
      (JSNum.num b) (JSNum.num a)))).get? 2) = JSNum.num b := by
    rw [hparts]
    show jsNumberOfChars (' ' :: numToString (JSNum.num b)) = JSNum.num b
    rw [jsNumberOfChars_cons_space]
    exact qToChars_roundtrip b hb
  have hA : jsToNumber ((fromRGBAparts (toRGBA (UColor.mk (JSNum.num r) (JSNum.num g)
      (JSNum.num b) (JSNum.num a)))).get? 3) = JSNum.num a := by
    rw [hparts]
    show jsNumberOfChars (' ' :: numToString (JSNum.num a)) = JSNum.num a
    rw [jsNumberOfChars_cons_space]
    exact qToChars_roundtrip a ha
  constructor
  · intro h0
    rw [fromRGBA, hR, hG, hB, hA,
      if_pos (by simp [JSNum.truthy, h0] : (JSNum.num a).truthy = true)]
  · intro h0
    subst h0
    rw [fromRGBA, hR, hG, hB, hA,
      if_neg (by simp [JSNum.truthy] : ¬(JSNum.num 0).truthy = true)]

/-- Witness for `rgba_roundtrip` at a concrete color with nonzero
alpha. -/
theorem rgba_roundtrip_witness :
    fromRGBA (toRGBA (UColor.mk (JSNum.num 255) (JSNum.num 161) (JSNum.num 12)
        (JSNum.num 1))) =
      UColor.mk (JSNum.num 255) (JSNum.num 161) (JSNum.num 12) (JSNum.num 1) := by
  have h255 : DecimalRep (255 : ℚ) := by
    rw [DecimalRep, Rat.den_ofNat]
    exact Nat.one_dvd _
  have h161 : DecimalRep (161 : ℚ) := by
    rw [DecimalRep, Rat.den_ofNat]
    exact Nat.one_dvd _
  have h12 : DecimalRep (12 : ℚ) := by
    rw [DecimalRep, Rat.den_ofNat]
    exact Nat.one_dvd _
  have h1 : DecimalRep (1 : ℚ) := by
    rw [DecimalRep, Rat.den_one]
    exact Nat.one_dvd _
  exact (rgba_roundtrip 255 161 12 1 h255 h161 h12 h1).1 (by norm_num)
